import Mathlib

/-!
Verification of the Email-Scheduler-GO core (src/main.go) against its
natural-language specification.

The embedding models the durable store (jobs, subscribers, sends tables),
the in-process task queue, and the concurrent goroutines (scheduler loop,
per-job dispatchers, workers) as a labelled transition system on an
explicit `State`.  Each SQL statement issued by the Go code becomes a pure
function on the corresponding list of rows; each goroutine's program
counter is represented explicitly (`dispatching` for a dispatcher before
its subscriber query, `polling` for a dispatcher waiting on completion,
`inFlight` for a worker between the `sending` update and the send-call
outcome).
-/

namespace EmailScheduler

/-- A row of the `subscribers` table (src/main.go schema, initDB). -/
structure Subscriber where
  id : String
  email : String
  createdAt : Int
deriving DecidableEq, Repr

/-- A row of the `jobs` table (src/main.go schema, initDB). -/
structure Job where
  id : String
  subject : String
  body : String
  scheduledAt : Int
  status : String
  createdAt : Int
  completedAt : Option Int
deriving DecidableEq, Repr

/-- A row of the `sends` table (src/main.go schema, initDB). -/
structure Send where
  id : String
  jobId : String
  subscriberId : String
  email : String
  status : String
  attempts : Nat
  lastError : Option String
  createdAt : Int
  sentAt : Option Int
deriving DecidableEq, Repr

/-- The Go struct `SendTask` (src/main.go): one queued delivery task. -/
structure SendTask where
  sendId : String
  jobId : String
  email : String
  subject : String
  body : String
deriving DecidableEq, Repr

/-- The Go struct `JobReq` (src/main.go): the JSON body of POST /schedule. -/
structure JobReq where
  subject : String
  body : String
  scheduledAt : String
deriving DecidableEq, Repr

/-- The arguments `(jobID, subject, body)` passed to a spawned
`dispatchJob` goroutine (src/main.go, enqueueDueJobs). -/
structure DispatchArg where
  jobId : String
  subject : String
  body : String
deriving DecidableEq, Repr

/-- The five job status values appearing in src/main.go. -/
def jobStatuses : List String :=
  ["pending", "running", "completed", "completed_with_errors", "failed"]

/-- The whole mutable state of the process: the three SQLite tables plus
the in-memory task channel and the program counters of the live
goroutines. -/
structure State where
  jobs : List Job
  subscribers : List Subscriber
  sends : List Send
  taskQ : List SendTask
  inFlight : List SendTask
  dispatching : List DispatchArg
  polling : List String
deriving DecidableEq, Repr

/-- The empty store at process start. -/
def initState : State := ⟨[], [], [], [], [], [], []⟩

/-! ### SQL statements as pure functions -/

/-- Effect of `UPDATE jobs SET status = 'running' WHERE id = ?` on one row
(src/main.go, enqueueDueJobs).  Note: the WHERE clause tests only the id,
not the current status. -/
def runJob (i : String) (j : Job) : Job :=
  if j.id = i then { j with status := "running" } else j

/-- `UPDATE jobs SET status = 'running' WHERE id = ?` (src/main.go,
enqueueDueJobs), returning the updated table and the number of rows the
statement affected. -/
def markRunning (i : String) (jobs : List Job) : List Job × Nat :=
  (jobs.map (runJob i), (jobs.filter (fun j => j.id == i)).length)

/-- Effect of `UPDATE jobs SET status = ?, completed_at = ? WHERE id = ?`
(src/main.go, dispatchJob) on one row. -/
def updJob (i st : String) (now : Int) (j : Job) : Job :=
  if j.id = i then { j with status := st, completedAt := some now } else j

/-- `UPDATE jobs SET status = ?, completed_at = ? WHERE id = ?`
(src/main.go, dispatchJob: both the failure branch and finalization). -/
def updateJobCompleted (i st : String) (now : Int) (jobs : List Job) : List Job :=
  jobs.map (updJob i st now)

/-- Effect of `UPDATE sends SET status = 'sending', attempts = attempts+1
WHERE id = ?` (src/main.go, worker) on one row. -/
def updSending (i : String) (x : Send) : Send :=
  if x.id = i then { x with status := "sending", attempts := x.attempts + 1 } else x

/-- `UPDATE sends SET status = 'sending', attempts = attempts+1 WHERE id = ?`
(src/main.go, worker). -/
def markSending (i : String) (sends : List Send) : List Send :=
  sends.map (updSending i)

/-- Effect of `UPDATE sends SET status = 'sent', sent_at = ? WHERE id = ?`
(src/main.go, worker) on one row. -/
def updSent (i : String) (now : Int) (x : Send) : Send :=
  if x.id = i then { x with status := "sent", sentAt := some now } else x

/-- `UPDATE sends SET status = 'sent', sent_at = ? WHERE id = ?`
(src/main.go, worker). -/
def markSent (i : String) (now : Int) (sends : List Send) : List Send :=
  sends.map (updSent i now)

/-- Effect of `UPDATE sends SET status = 'failed', last_error = ? WHERE id = ?`
(src/main.go, worker) on one row. -/
def updFailed (i e : String) (x : Send) : Send :=
  if x.id = i then { x with status := "failed", lastError := some e } else x

/-- `UPDATE sends SET status = 'failed', last_error = ? WHERE id = ?`
(src/main.go, worker). -/
def markFailed (i e : String) (sends : List Send) : List Send :=
  sends.map (updFailed i e)

/-! ### Scheduler loop (enqueueDueJobs) -/

/-- `SELECT id,subject,body FROM jobs WHERE status = 'pending' AND
scheduled_at <= ?` (src/main.go, enqueueDueJobs). -/
def dueJobs (now : Int) (jobs : List Job) : List Job :=
  jobs.filter (fun j => j.status == "pending" && decide (j.scheduledAt ≤ now))

/-- One tick of the scheduler loop (src/main.go, enqueueDueJobs): select
the due pending jobs, mark each one running, and spawn a `dispatchJob`
goroutine for each (recorded in `dispatching`). -/
def enqueueDueJobs (now : Int) (s : State) : State :=
  let due := dueJobs now s.jobs
  { s with
    jobs := due.foldl (fun js j => (markRunning j.id js).1) s.jobs
    dispatching := s.dispatching ++ due.map (fun j => ⟨j.id, j.subject, j.body⟩) }

/-! ### Dispatcher (dispatchJob) -/

/-- The send row inserted by `INSERT INTO sends(id,job_id,subscriber_id,
email,status,created_at,attempts) VALUES(?,?,?,?,'queued',?,0)`
(src/main.go, dispatchJob). -/
def mkSend (jobId : String) (sub : Subscriber) (sid : String) (now : Int) : Send :=
  ⟨sid, jobId, sub.id, sub.email, "queued", 0, none, now, none⟩

/-- The task appended for a successfully inserted send row
(src/main.go, dispatchJob). -/
def mkTask (d : DispatchArg) (sub : Subscriber) (sid : String) : SendTask :=
  ⟨sid, d.jobId, sub.email, d.subject, d.body⟩

/-- The per-subscriber loop of dispatchJob (src/main.go): each entry is a
subscriber row together with the fresh uuid chosen for its send and
whether the `INSERT INTO sends` succeeded (a failed insertion is skipped
and gets no task).  Returns the inserted send rows and constructed tasks,
in subscriber-enumeration order. -/
def createSends (d : DispatchArg) (now : Int)
    (entries : List (Subscriber × String × Bool)) : List Send × List SendTask :=
  ((entries.filter (fun e => e.2.2)).map (fun e => mkSend d.jobId e.1 e.2.1 now),
   (entries.filter (fun e => e.2.2)).map (fun e => mkTask d e.1 e.2.1))

/-- `SELECT COUNT(1) FROM sends WHERE job_id = ? AND status IN
('queued','sending')` equals zero (src/main.go, dispatchJob wait loop). -/
def noActiveSends (jobId : String) (sends : List Send) : Bool :=
  sends.all (fun x => !(x.jobId == jobId && (x.status == "queued" || x.status == "sending")))

/-- The sends belonging to one job (`... WHERE job_id = ?`). -/
def sendsFor (jobId : String) (sends : List Send) : List Send :=
  sends.filter (fun x => x.jobId == jobId)

/-- `SELECT COUNT(1) FROM sends WHERE job_id = ? AND status = 'failed'`
(src/main.go, dispatchJob finalization). -/
def failedCount (jobId : String) (sends : List Send) : Nat :=
  (sends.filter (fun x => x.jobId == jobId && x.status == "failed")).length

/-- The terminal status chosen by dispatchJob's finalization
(src/main.go): `completed_with_errors` when the failed count is positive,
else `completed`. -/
def finalizeStatus (jobId : String) (sends : List Send) : String :=
  if 0 < failedCount jobId sends then "completed_with_errors" else "completed"

/-! ### HTTP schedule handler (scheduleJobHandler) -/

/-- Go's `strings.TrimSpace` (src/main.go, scheduleJobHandler): strip
leading and trailing whitespace.  Defined by structural recursion on the
character list so that it evaluates inside the kernel. -/
def trimSpace (str : String) : String :=
  ⟨((str.data.dropWhile Char.isWhitespace).reverse.dropWhile Char.isWhitespace).reverse⟩

/-- Result of an HTTP handler: a JSON success payload or an http.Error. -/
inductive HandlerResp where
  | ok (id : String) (scheduledAt : Int)
  | err (code : Nat) (msg : String)
deriving DecidableEq, Repr

/-- The digits of a decimal literal, or `none` on an empty string or a
non-digit character (the base-10 digit loop of Go's strconv.ParseInt). -/
def parseDigits (cs : List Char) : Option Nat :=
  if cs = [] then none
  else cs.foldl (fun acc c =>
    acc.bind (fun n => if c.isDigit then some (n * 10 + (c.toNat - 48)) else none)) (some 0)

/-- Go's `strconv.ParseInt(s, 10, 64)` (src/main.go, scheduleJobHandler):
an optional sign followed by at least one decimal digit, rejected when the
value does not fit in a signed 64-bit integer. -/
def parseDecInt64 (str : String) : Option Int :=
  match str.toList with
  | '+' :: rest =>
      (parseDigits rest).bind (fun n => if (n : Int) ≤ 2 ^ 63 - 1 then some (n : Int) else none)
  | '-' :: rest =>
      (parseDigits rest).bind (fun n => if (n : Int) ≤ 2 ^ 63 then some (-(n : Int)) else none)
  | cs =>
      (parseDigits cs).bind (fun n => if (n : Int) ≤ 2 ^ 63 - 1 then some (n : Int) else none)

/-- scheduleJobHandler (src/main.go): decode the JSON body (`none` models
a decode error), trim subject and body, resolve `scheduled_at` (empty ↦
now; else RFC3339 via the stdlib parser `parseRFC`, modelled abstractly;
else decimal unix seconds), and insert a `pending` job row.  `newId` is
the fresh uuid chosen for the row. -/
def scheduleJobHandler (parseRFC : String → Option Int) (req : Option JobReq)
    (now : Int) (newId : String) (s : State) : HandlerResp × State :=
  match req with
  | none => (.err 400 "invalid json", s)
  | some r =>
    if trimSpace r.subject = "" ∨ trimSpace r.body = "" then (.err 400 "subject and body required", s)
    else
      match (if r.scheduledAt = "" then some now
             else match parseRFC r.scheduledAt with
               | some t => some t
               | none => parseDecInt64 r.scheduledAt) with
      | none => (.err 400 "invalid scheduled_at", s)
      | some ts =>
          (.ok newId ts,
           { s with jobs :=
              s.jobs ++ [⟨newId, trimSpace r.subject, trimSpace r.body, ts, "pending", now, none⟩] })

/-! ### The labelled transition system -/

/-- One observable operation of the system.  `addSubscriber` is one row of
the CSV upload loop (uploadCSVHandler); `schedule` is one POST /schedule
request; `tick` is one run of enqueueDueJobs; the `dispatch*` acts are the
phases of a dispatchJob goroutine; the `worker*` acts are the phases of a
worker processing one task. -/
inductive Act where
  | addSubscriber (sub : Subscriber)
  | schedule (req : Option JobReq) (now : Int) (newId : String)
  | tick (now : Int)
  | dispatchEnumFail (d : DispatchArg) (now : Int)
  | dispatchCreate (d : DispatchArg) (entries : List (Subscriber × String × Bool)) (now : Int)
  | dispatchFinalize (jobId : String) (now : Int)
  | workerStart (t : SendTask)
  | workerFinish (t : SendTask) (outcome : Option String) (now : Int)

/-- `INSERT INTO subscribers(id,email,created_at)` for one CSV row
(src/main.go, uploadCSVHandler). -/
def addSubscriberRun (sub : Subscriber) (s : State) : State :=
  { s with subscribers := s.subscribers ++ [sub] }

/-- State effect of one POST /schedule request. -/
def scheduleRun (parseRFC : String → Option Int) (req : Option JobReq)
    (now : Int) (newId : String) (s : State) : State :=
  (scheduleJobHandler parseRFC req now newId s).2

/-- The failure branch of dispatchJob (src/main.go): the subscriber query
errored, so the job is marked `failed` with a completion timestamp and
the goroutine exits. -/
def dispatchEnumFailRun (d : DispatchArg) (now : Int) (s : State) : State :=
  { s with
    jobs := updateJobCompleted d.jobId "failed" now s.jobs
    dispatching := s.dispatching.erase d }

/-- The fan-out phase of dispatchJob (src/main.go): insert one `queued`
send per enumerated subscriber (skipping failed insertions), push the
constructed tasks onto the task queue, and move to the polling phase. -/
def dispatchCreateRun (d : DispatchArg) (entries : List (Subscriber × String × Bool))
    (now : Int) (s : State) : State :=
  { s with
    sends := s.sends ++ (createSends d now entries).1
    taskQ := s.taskQ ++ (createSends d now entries).2
    dispatching := s.dispatching.erase d
    polling := s.polling ++ [d.jobId] }

/-- The finalization of dispatchJob (src/main.go): set the job's terminal
status from the failed-send count and stamp the completion time. -/
def finalizeJobRun (i : String) (now : Int) (s : State) : State :=
  { s with
    jobs := updateJobCompleted i (finalizeStatus i s.sends) now s.jobs
    polling := s.polling.erase i }

/-- A worker receives the next task from the channel and issues the
`sending` update (src/main.go, worker). -/
def workerStartRun (t : SendTask) (rest : List SendTask) (s : State) : State :=
  { s with
    sends := markSending t.sendId s.sends
    taskQ := rest
    inFlight := s.inFlight ++ [t] }

/-- The doSend call returns (src/main.go, worker): on success the send is
marked `sent`, on failure `failed` with the error text. -/
def workerFinishRun (t : SendTask) (outcome : Option String) (now : Int) (s : State) : State :=
  match outcome with
  | none => { s with sends := markSent t.sendId now s.sends, inFlight := s.inFlight.erase t }
  | some e => { s with sends := markFailed t.sendId e s.sends, inFlight := s.inFlight.erase t }

/-- The transition relation of the system.  Hypotheses record the
enabling conditions of each operation: channel receive order, goroutine
program counters, the uniqueness the store enforces (UNIQUE email) and
the freshness of generated uuids. -/
inductive Step : State → Act → State → Prop where
  | addSubscriber (s : State) (sub : Subscriber)
      (hemail : ∀ u ∈ s.subscribers, u.email ≠ sub.email) :
      Step s (Act.addSubscriber sub) (addSubscriberRun sub s)
  | schedule (s : State) (parseRFC : String → Option Int) (req : Option JobReq)
      (now : Int) (newId : String)
      (hfresh : ∀ j ∈ s.jobs, j.id ≠ newId) :
      Step s (Act.schedule req now newId) (scheduleRun parseRFC req now newId s)
  | tick (s : State) (now : Int) :
      Step s (Act.tick now) (enqueueDueJobs now s)
  | dispatchEnumFail (s : State) (d : DispatchArg) (now : Int)
      (hd : d ∈ s.dispatching) :
      Step s (Act.dispatchEnumFail d now) (dispatchEnumFailRun d now s)
  | dispatchCreate (s : State) (d : DispatchArg)
      (entries : List (Subscriber × String × Bool)) (now : Int)
      (hd : d ∈ s.dispatching)
      (hsubs : entries.map (fun e => e.1) = s.subscribers)
      (hfresh : ∀ e ∈ entries, ∀ x ∈ s.sends, x.id ≠ e.2.1)
      (hnodup : (entries.map (fun e => e.2.1)).Nodup) :
      Step s (Act.dispatchCreate d entries now) (dispatchCreateRun d entries now s)
  | dispatchFinalize (s : State) (i : String) (now : Int)
      (hp : i ∈ s.polling)
      (hdone : noActiveSends i s.sends = true) :
      Step s (Act.dispatchFinalize i now) (finalizeJobRun i now s)
  | workerStart (s : State) (t : SendTask) (rest : List SendTask)
      (hq : s.taskQ = t :: rest) :
      Step s (Act.workerStart t) (workerStartRun t rest s)
  | workerFinishOk (s : State) (t : SendTask) (now : Int)
      (ht : t ∈ s.inFlight) :
      Step s (Act.workerFinish t none now) (workerFinishRun t none now s)
  | workerFinishErr (s : State) (t : SendTask) (e : String) (now : Int)
      (ht : t ∈ s.inFlight) :
      Step s (Act.workerFinish t (some e) now) (workerFinishRun t (some e) now s)

/-- States reachable from process start. -/
def Reachable (s : State) : Prop :=
  Relation.ReflTransGen (fun a b => ∃ act, Step a act b) initState s

/-- Zero or more steps. -/
def StepStar (s t : State) : Prop :=
  Relation.ReflTransGen (fun a b => ∃ act, Step a act b) s t

/-! ### The system invariant -/

/-- Invariant of all reachable states: primary-key uniqueness, job
statuses well formed, every live dispatcher owns an existing job that is
`running` and at most one dispatcher per job, a dispatcher that has not
yet fanned out has no sends for its job, sends and tasks are consistently
linked, and a task in the queue (resp. in flight) points at a `queued`
(resp. `sending`) send. -/
def Inv (s : State) : Prop :=
  (s.jobs.map Job.id).Nodup ∧
  (∀ j ∈ s.jobs, j.status ∈ jobStatuses) ∧
  (∀ d ∈ s.dispatching, ∃ j ∈ s.jobs, j.id = d.jobId) ∧
  (∀ d ∈ s.dispatching, ∀ j ∈ s.jobs, j.id = d.jobId → j.status = "running") ∧
  (∀ p ∈ s.polling, ∃ j ∈ s.jobs, j.id = p) ∧
  (∀ p ∈ s.polling, ∀ j ∈ s.jobs, j.id = p → j.status = "running") ∧
  ((s.dispatching.map DispatchArg.jobId ++ s.polling).Nodup) ∧
  (∀ d ∈ s.dispatching, ∀ x ∈ s.sends, x.jobId ≠ d.jobId) ∧
  (∀ x ∈ s.sends, ∃ j ∈ s.jobs, j.id = x.jobId) ∧
  (∀ j ∈ s.jobs, j.status = "pending" → ∀ x ∈ s.sends, x.jobId ≠ j.id) ∧
  (∀ t ∈ s.taskQ, ∀ x ∈ s.sends, x.id = t.sendId → x.status = "queued") ∧
  (∀ t ∈ s.inFlight, ∀ x ∈ s.sends, x.id = t.sendId → x.status = "sending") ∧
  (((s.taskQ ++ s.inFlight).map SendTask.sendId).Nodup) ∧
  (∀ t ∈ s.taskQ ++ s.inFlight, ∃ x ∈ s.sends, x.id = t.sendId)

/-! ### List and row-update helper lemmas -/

theorem nodup_map_mem_eq {α β : Type _} {f : α → β} {l : List α} (hn : (l.map f).Nodup)
    {a b : α} (ha : a ∈ l) (hb : b ∈ l) (h : f a = f b) : a = b := by
  induction l with
  | nil => cases ha
  | cons x xs ih =>
    simp only [List.map_cons, List.nodup_cons] at hn
    rcases List.mem_cons.mp ha with rfl | ha' <;> rcases List.mem_cons.mp hb with rfl | hb'
    · rfl
    · exact absurd (h ▸ List.mem_map_of_mem f hb') hn.1
    · exact absurd (h ▸ List.mem_map_of_mem f ha') (by simpa [h] using hn.1)
    · exact ih hn.2 ha' hb'

theorem runJob_id (i : String) (j : Job) : (runJob i j).id = j.id := by
  unfold runJob; split <;> rfl

theorem updJob_id (i st : String) (now : Int) (j : Job) : (updJob i st now j).id = j.id := by
  unfold updJob; split <;> rfl

theorem updJob_of_ne (i st : String) (now : Int) (j : Job) (h : j.id ≠ i) :
    updJob i st now j = j := by
  unfold updJob; simp [h]

theorem updJob_of_eq (i st : String) (now : Int) (j : Job) (h : j.id = i) :
    updJob i st now j = { j with status := st, completedAt := some now } := by
  unfold updJob; simp [h]

theorem map_jobId_updateJobCompleted (i st : String) (now : Int) (jobs : List Job) :
    (updateJobCompleted i st now jobs).map Job.id = jobs.map Job.id := by
  unfold updateJobCompleted
  rw [List.map_map]
  have h : Job.id ∘ updJob i st now = Job.id := funext (fun j => updJob_id i st now j)
  rw [h]

theorem updSending_id (i : String) (x : Send) : (updSending i x).id = x.id := by
  unfold updSending; split <;> rfl

theorem updSending_jobId (i : String) (x : Send) : (updSending i x).jobId = x.jobId := by
  unfold updSending; split <;> rfl

theorem updSending_of_ne (i : String) (x : Send) (h : x.id ≠ i) : updSending i x = x := by
  unfold updSending; simp [h]

theorem updSent_id (i : String) (now : Int) (x : Send) : (updSent i now x).id = x.id := by
  unfold updSent; split <;> rfl

theorem updSent_jobId (i : String) (now : Int) (x : Send) : (updSent i now x).jobId = x.jobId := by
  unfold updSent; split <;> rfl

theorem updSent_of_ne (i : String) (now : Int) (x : Send) (h : x.id ≠ i) : updSent i now x = x := by
  unfold updSent; simp [h]

theorem updFailed_id (i e : String) (x : Send) : (updFailed i e x).id = x.id := by
  unfold updFailed; split <;> rfl

theorem updFailed_jobId (i e : String) (x : Send) : (updFailed i e x).jobId = x.jobId := by
  unfold updFailed; split <;> rfl

theorem updFailed_of_ne (i e : String) (x : Send) (h : x.id ≠ i) : updFailed i e x = x := by
  unfold updFailed; simp [h]

theorem map_id_of_id_preserved {f : Send → Send} (hf : ∀ x, (f x).id = x.id) (l : List Send) :
    (l.map f).map Send.id = l.map Send.id := by
  rw [List.map_map]
  have h : Send.id ∘ f = Send.id := funext hf
  rw [h]

theorem map_jobId_of_jobId_preserved {f : Send → Send} (hf : ∀ x, (f x).jobId = x.jobId)
    (l : List Send) : (l.map f).map Send.jobId = l.map Send.jobId := by
  rw [List.map_map]
  have h : Send.jobId ∘ f = Send.jobId := funext hf
  rw [h]

theorem setRunning_eq_self {j : Job} (h : j.status = "running") :
    { j with status := "running" } = j := by
  cases j
  simp only at h
  simp [h]

/-! ### Normal form for the scheduler tick -/

/-- Cumulative effect on one job row of the per-row `markRunning` updates
the tick issues for the selected ids. -/
def tickF (ids : List String) (j : Job) : Job :=
  if j.id ∈ ids then { j with status := "running" } else j

theorem tickF_id (ids : List String) (j : Job) : (tickF ids j).id = j.id := by
  unfold tickF; split <;> rfl

theorem tickF_of_not_mem {ids : List String} {j : Job} (h : j.id ∉ ids) : tickF ids j = j := by
  unfold tickF; simp [h]

theorem tickF_of_mem {ids : List String} {j : Job} (h : j.id ∈ ids) :
    tickF ids j = { j with status := "running" } := by
  unfold tickF; simp [h]

theorem tickF_status_of_running {ids : List String} {j : Job} (h : j.status = "running") :
    (tickF ids j).status = "running" := by
  unfold tickF
  split
  · rfl
  · exact h

theorem foldl_runJob (ids : List String) (jobs : List Job) :
    ids.foldl (fun js i => js.map (runJob i)) jobs = jobs.map (tickF ids) := by
  induction ids generalizing jobs with
  | nil =>
    have h : tickF [] = id := funext fun j => by simp [tickF]
    simp [h]
  | cons i ids ih =>
    rw [List.foldl_cons, ih, List.map_map]
    have hfun : tickF ids ∘ runJob i = tickF (i :: ids) := by
      funext j
      by_cases h1 : j.id = i
      · cases j
        simp only at h1
        simp [Function.comp, runJob, tickF, h1]
      · simp [Function.comp, runJob, tickF, h1, List.mem_cons]
    rw [hfun]

theorem enqueue_jobs_eq (now : Int) (s : State) :
    (enqueueDueJobs now s).jobs = s.jobs.map (tickF ((dueJobs now s.jobs).map Job.id)) := by
  show (dueJobs now s.jobs).foldl (fun js j => (markRunning j.id js).1) s.jobs = _
  have h1 : (dueJobs now s.jobs).foldl (fun js j => (markRunning j.id js).1) s.jobs
      = ((dueJobs now s.jobs).map Job.id).foldl (fun js i => js.map (runJob i)) s.jobs := by
    rw [List.foldl_map]
    rfl
  rw [h1, foldl_runJob]

theorem enqueue_dispatching_eq (now : Int) (s : State) :
    (enqueueDueJobs now s).dispatching
      = s.dispatching ++ (dueJobs now s.jobs).map (fun j => ⟨j.id, j.subject, j.body⟩) := rfl

theorem enqueue_sends_eq (now : Int) (s : State) : (enqueueDueJobs now s).sends = s.sends := rfl

theorem mem_dueJobs {now : Int} {jobs : List Job} {j : Job} :
    j ∈ dueJobs now jobs ↔ j ∈ jobs ∧ j.status = "pending" ∧ j.scheduledAt ≤ now := by
  simp [dueJobs, List.mem_filter, and_assoc]

theorem mem_dueIds {now : Int} {jobs : List Job} {j : Job}
    (hn : (jobs.map Job.id).Nodup) (hj : j ∈ jobs) :
    j.id ∈ (dueJobs now jobs).map Job.id ↔ j.status = "pending" ∧ j.scheduledAt ≤ now := by
  constructor
  · intro h
    rcases List.mem_map.mp h with ⟨d, hd, hid⟩
    have hdj : d ∈ jobs := (mem_dueJobs.mp hd).1
    have : d = j := nodup_map_mem_eq hn hdj hj hid
    subst this
    exact (mem_dueJobs.mp hd).2
  · rintro ⟨h1, h2⟩
    exact List.mem_map_of_mem _ (mem_dueJobs.mpr ⟨hj, h1, h2⟩)

theorem map_jobId_enqueue (now : Int) (s : State) :
    (enqueueDueJobs now s).jobs.map Job.id = s.jobs.map Job.id := by
  rw [enqueue_jobs_eq, List.map_map]
  have h : Job.id ∘ tickF ((dueJobs now s.jobs).map Job.id) = Job.id :=
    funext (tickF_id _)
  rw [h]

/-! ### Facts about the dispatcher fan-out and finalization -/

theorem mem_createSends_sends {d : DispatchArg} {now : Int}
    {entries : List (Subscriber × String × Bool)} {x : Send} :
    x ∈ (createSends d now entries).1 ↔
      ∃ e ∈ entries, e.2.2 = true ∧ x = mkSend d.jobId e.1 e.2.1 now := by
  simp only [createSends, List.mem_map, List.mem_filter]
  constructor
  · rintro ⟨e, ⟨he, hok⟩, rfl⟩
    exact ⟨e, he, hok, rfl⟩
  · rintro ⟨e, he, hok, rfl⟩
    exact ⟨e, ⟨he, hok⟩, rfl⟩

theorem mem_createSends_tasks {d : DispatchArg} {now : Int}
    {entries : List (Subscriber × String × Bool)} {t : SendTask} :
    t ∈ (createSends d now entries).2 ↔
      ∃ e ∈ entries, e.2.2 = true ∧ t = mkTask d e.1 e.2.1 := by
  simp only [createSends, List.mem_map, List.mem_filter]
  constructor
  · rintro ⟨e, ⟨he, hok⟩, rfl⟩
    exact ⟨e, he, hok, rfl⟩
  · rintro ⟨e, he, hok, rfl⟩
    exact ⟨e, ⟨he, hok⟩, rfl⟩

theorem createSends_sends_jobId {d : DispatchArg} {now : Int}
    {entries : List (Subscriber × String × Bool)} {x : Send}
    (hx : x ∈ (createSends d now entries).1) :
    x.jobId = d.jobId ∧ x.status = "queued" ∧ x.attempts = 0 := by
  rcases mem_createSends_sends.mp hx with ⟨e, _, _, rfl⟩
  exact ⟨rfl, rfl, rfl⟩

theorem createSends_pair {d : DispatchArg} {now : Int}
    {entries : List (Subscriber × String × Bool)} {t : SendTask}
    (ht : t ∈ (createSends d now entries).2) :
    ∃ x ∈ (createSends d now entries).1, x.id = t.sendId := by
  rcases mem_createSends_tasks.mp ht with ⟨e, he, hok, rfl⟩
  exact ⟨mkSend d.jobId e.1 e.2.1 now, mem_createSends_sends.mpr ⟨e, he, hok, rfl⟩, rfl⟩

theorem createSends_task_id_mem {d : DispatchArg} {now : Int}
    {entries : List (Subscriber × String × Bool)} {t : SendTask}
    (ht : t ∈ (createSends d now entries).2) :
    ∃ e ∈ entries, t.sendId = e.2.1 := by
  rcases mem_createSends_tasks.mp ht with ⟨e, he, _, rfl⟩
  exact ⟨e, he, rfl⟩

theorem createSends_send_id_mem {d : DispatchArg} {now : Int}
    {entries : List (Subscriber × String × Bool)} {x : Send}
    (hx : x ∈ (createSends d now entries).1) :
    ∃ e ∈ entries, x.id = e.2.1 := by
  rcases mem_createSends_sends.mp hx with ⟨e, he, _, rfl⟩
  exact ⟨e, he, rfl⟩

theorem createSends_taskIds {d : DispatchArg} {now : Int}
    {entries : List (Subscriber × String × Bool)} :
    ((createSends d now entries).2.map SendTask.sendId)
      = (entries.filter (fun e => e.2.2)).map (fun e => e.2.1) := by
  simp only [createSends, List.map_map]
  rfl

theorem createSends_sendIds {d : DispatchArg} {now : Int}
    {entries : List (Subscriber × String × Bool)} :
    ((createSends d now entries).1.map Send.id)
      = (entries.filter (fun e => e.2.2)).map (fun e => e.2.1) := by
  simp only [createSends, List.map_map]
  rfl

theorem createSends_taskIds_nodup {d : DispatchArg} {now : Int}
    {entries : List (Subscriber × String × Bool)}
    (hnodup : (entries.map (fun e => e.2.1)).Nodup) :
    ((createSends d now entries).2.map SendTask.sendId).Nodup := by
  rw [createSends_taskIds]
  exact hnodup.sublist ((List.filter_sublist entries).map _)

theorem finalizeStatus_cases (i : String) (sends : List Send) :
    finalizeStatus i sends = "completed" ∨ finalizeStatus i sends = "completed_with_errors" := by
  unfold finalizeStatus
  split
  · right; rfl
  · left; rfl

theorem updJob_status (i st : String) (now : Int) (j : Job) :
    (updJob i st now j).status = if j.id = i then st else j.status := by
  unfold updJob; split <;> rfl

theorem updSending_status (i : String) (x : Send) :
    (updSending i x).status = if x.id = i then "sending" else x.status := by
  unfold updSending; split <;> rfl

/-! ### Preservation of the invariant -/

theorem inv_addSubscriberRun (s : State) (sub : Subscriber) (hi : Inv s) :
    Inv (addSubscriberRun sub s) := hi

theorem scheduleRun_spec (parseRFC : String → Option Int) (req : Option JobReq)
    (now : Int) (newId : String) (s : State) :
    ∃ tail : List Job,
      scheduleRun parseRFC req now newId s = { s with jobs := s.jobs ++ tail } ∧
      tail.length ≤ 1 ∧
      ∀ j ∈ tail, j.id = newId ∧ j.status = "pending" := by
  unfold scheduleRun scheduleJobHandler
  cases req with
  | none =>
    exact ⟨[], by simp, by simp, by simp⟩
  | some r =>
    dsimp only
    split
    · exact ⟨[], by simp, by simp, by simp⟩
    · split
      · exact ⟨[], by simp, by simp, by simp⟩
      · rename_i ts _
        refine ⟨[⟨newId, trimSpace r.subject, trimSpace r.body, ts, "pending", now, none⟩], rfl, by simp, ?_⟩
        intro j hj
        rcases List.mem_singleton.mp hj with rfl
        exact ⟨rfl, rfl⟩

theorem inv_scheduleRun (parseRFC : String → Option Int) (req : Option JobReq)
    (now : Int) (newId : String) (s : State) (hi : Inv s)
    (hfresh : ∀ j ∈ s.jobs, j.id ≠ newId) :
    Inv (scheduleRun parseRFC req now newId s) := by
  obtain ⟨hJN, hWF, hDJ, hDR, hPJ, hPR, hDP, hDS, hSJ, hPS, hQT, hFT, hTN, hTS⟩ := hi
  obtain ⟨tail, heq, hlen, htail⟩ := scheduleRun_spec parseRFC req now newId s
  rw [heq]
  refine ⟨?_, ?_, ?_, ?_, ?_, ?_, hDP, hDS, ?_, ?_, hQT, hFT, hTN, hTS⟩
  · -- job ids stay nodup
    simp only [List.map_append]
    rw [List.nodup_append]
    refine ⟨hJN, ?_, ?_⟩
    · rcases tail with _ | ⟨j, tl⟩
      · simp
      · rcases tl with _ | ⟨j2, tl2⟩
        · simp
        · simp at hlen
    · intro a ha hb
      rcases List.mem_map.mp hb with ⟨j, hj, rfl⟩
      rcases List.mem_map.mp ha with ⟨j0, hj0, he⟩
      exact hfresh j0 hj0 (he.trans (htail j hj).1)
  · intro j hj
    rcases List.mem_append.mp hj with h | h
    · exact hWF j h
    · rw [(htail j h).2]
      simp [jobStatuses]
  · intro d hd
    obtain ⟨j, hj, hje⟩ := hDJ d hd
    exact ⟨j, List.mem_append_left _ hj, hje⟩
  · intro d hd j hj hje
    rcases List.mem_append.mp hj with h | h
    · exact hDR d hd j h hje
    · obtain ⟨j0, hj0, hj0e⟩ := hDJ d hd
      rw [(htail j h).1] at hje
      exact absurd (hje ▸ hj0e) (hfresh j0 hj0)
  · intro p hp
    obtain ⟨j, hj, hje⟩ := hPJ p hp
    exact ⟨j, List.mem_append_left _ hj, hje⟩
  · intro p hp j hj hje
    rcases List.mem_append.mp hj with h | h
    · exact hPR p hp j h hje
    · obtain ⟨j0, hj0, hj0e⟩ := hPJ p hp
      rw [(htail j h).1] at hje
      exact absurd (hje ▸ hj0e) (hfresh j0 hj0)
  · intro x hx
    obtain ⟨j, hj, hje⟩ := hSJ x hx
    exact ⟨j, List.mem_append_left _ hj, hje⟩
  · intro j hj hpend x hx
    rcases List.mem_append.mp hj with h | h
    · exact hPS j h hpend x hx
    · rw [(htail j h).1]
      obtain ⟨j0, hj0, hj0e⟩ := hSJ x hx
      rw [← hj0e]
      exact hfresh j0 hj0

theorem inv_enqueue (now : Int) (s : State) (hi : Inv s) : Inv (enqueueDueJobs now s) := by
  obtain ⟨hJN, hWF, hDJ, hDR, hPJ, hPR, hDP, hDS, hSJ, hPS, hQT, hFT, hTN, hTS⟩ := hi
  have hjobs := enqueue_jobs_eq now s
  have hdisp := enqueue_dispatching_eq now s
  refine ⟨?_, ?_, ?_, ?_, ?_, ?_, ?_, ?_, ?_, ?_, hQT, hFT, hTN, hTS⟩
  · rw [map_jobId_enqueue]
    exact hJN
  · intro j' hj'
    rw [hjobs] at hj'
    rcases List.mem_map.mp hj' with ⟨j, hj, rfl⟩
    unfold tickF
    split
    · simp [jobStatuses]
    · exact hWF j hj
  · intro d hd
    rw [hdisp] at hd
    rw [hjobs]
    rcases List.mem_append.mp hd with h | h
    · obtain ⟨j, hj, hje⟩ := hDJ d h
      exact ⟨tickF _ j, List.mem_map_of_mem _ hj, (tickF_id _ j).trans hje⟩
    · rcases List.mem_map.mp h with ⟨dj, hdj, rfl⟩
      have hdjm : dj ∈ s.jobs := (mem_dueJobs.mp hdj).1
      exact ⟨tickF _ dj, List.mem_map_of_mem _ hdjm, tickF_id _ dj⟩
  · intro d hd j' hj' hje
    rw [hdisp] at hd
    rw [hjobs] at hj'
    rcases List.mem_map.mp hj' with ⟨j, hj, rfl⟩
    rw [tickF_id] at hje
    rcases List.mem_append.mp hd with h | h
    · exact tickF_status_of_running (hDR d h j hj hje)
    · rcases List.mem_map.mp h with ⟨dj, hdj, rfl⟩
      have hje' : j.id = dj.id := hje
      have hm : j.id ∈ (dueJobs now s.jobs).map Job.id := by
        rw [hje']
        exact List.mem_map_of_mem _ hdj
      rw [tickF_of_mem hm]
  · intro p hp
    rw [hjobs]
    obtain ⟨j, hj, hje⟩ := hPJ p hp
    exact ⟨tickF _ j, List.mem_map_of_mem _ hj, (tickF_id _ j).trans hje⟩
  · intro p hp j' hj' hje
    rw [hjobs] at hj'
    rcases List.mem_map.mp hj' with ⟨j, hj, rfl⟩
    rw [tickF_id] at hje
    exact tickF_status_of_running (hPR p hp j hj hje)
  · -- the dispatcher/poller job ids stay pairwise distinct
    rw [hdisp, List.map_append]
    have hB : ((dueJobs now s.jobs).map (fun j => (⟨j.id, j.subject, j.body⟩ : DispatchArg))).map
        DispatchArg.jobId = (dueJobs now s.jobs).map Job.id := by
      rw [List.map_map]
      rfl
    rw [hB]
    have hperm : List.Perm
        ((s.dispatching.map DispatchArg.jobId ++ (dueJobs now s.jobs).map Job.id) ++ s.polling)
        ((s.dispatching.map DispatchArg.jobId ++ s.polling) ++ (dueJobs now s.jobs).map Job.id) := by
      rw [List.append_assoc, List.append_assoc]
      exact List.Perm.append_left _ List.perm_append_comm
    refine hperm.symm.nodup ?_
    rw [List.nodup_append]
    refine ⟨hDP, hJN.sublist ((List.filter_sublist s.jobs).map _), ?_⟩
    intro a ha hb
    rcases List.mem_map.mp hb with ⟨dj, hdj, rfl⟩
    obtain ⟨hdjm, hpend, _⟩ := mem_dueJobs.mp hdj
    rcases List.mem_append.mp ha with h | h
    · rcases List.mem_map.mp h with ⟨d, hd, hde⟩
      obtain ⟨j0, hj0, hj0e⟩ := hDJ d hd
      have : dj = j0 := nodup_map_mem_eq hJN hdjm hj0 (by rw [hj0e, hde])
      have hrun := hDR d hd j0 hj0 hj0e
      rw [← this, hpend] at hrun
      exact absurd hrun (by decide)
    · obtain ⟨j0, hj0, hj0e⟩ := hPJ dj.id h
      have : dj = j0 := nodup_map_mem_eq hJN hdjm hj0 (by rw [hj0e])
      have hrun := hPR dj.id h j0 hj0 hj0e
      rw [← this, hpend] at hrun
      exact absurd hrun (by decide)
  · intro d hd x hx
    rw [hdisp] at hd
    rcases List.mem_append.mp hd with h | h
    · exact hDS d h x hx
    · rcases List.mem_map.mp h with ⟨dj, hdj, rfl⟩
      obtain ⟨hdjm, hpend, _⟩ := mem_dueJobs.mp hdj
      exact hPS dj hdjm hpend x hx
  · intro x hx
    obtain ⟨j, hj, hje⟩ := hSJ x hx
    rw [hjobs]
    exact ⟨tickF _ j, List.mem_map_of_mem _ hj, (tickF_id _ j).trans hje⟩
  · intro j' hj' hpend x hx
    rw [hjobs] at hj'
    rcases List.mem_map.mp hj' with ⟨j, hj, rfl⟩
    by_cases hm : j.id ∈ (dueJobs now s.jobs).map Job.id
    · rw [tickF_of_mem hm] at hpend
      exact absurd (show ("running" : String) = "pending" from hpend) (by decide)
    · rw [tickF_of_not_mem hm] at hpend ⊢
      exact hPS j hj hpend x hx

theorem inv_enumFail (s : State) (d : DispatchArg) (now : Int) (hi : Inv s)
    (hd : d ∈ s.dispatching) : Inv (dispatchEnumFailRun d now s) := by
  obtain ⟨hJN, hWF, hDJ, hDR, hPJ, hPR, hDP, hDS, hSJ, hPS, hQT, hFT, hTN, hTS⟩ := hi
  have hDN : (s.dispatching.map DispatchArg.jobId).Nodup := (List.nodup_append.mp hDP).1
  have hLN : s.dispatching.Nodup := hDN.of_map _
  have hdisj : (s.dispatching.map DispatchArg.jobId).Disjoint s.polling :=
    (List.nodup_append.mp hDP).2.2
  unfold dispatchEnumFailRun
  refine ⟨?_, ?_, ?_, ?_, ?_, ?_, ?_, ?_, ?_, ?_, hQT, hFT, hTN, hTS⟩
  · dsimp only
    rw [map_jobId_updateJobCompleted]
    exact hJN
  · dsimp only
    intro j' hj'
    rcases List.mem_map.mp hj' with ⟨j, hj, rfl⟩
    rw [updJob_status]
    split
    · decide
    · exact hWF j hj
  · dsimp only
    intro d0 hd0
    obtain ⟨j, hj, hje⟩ := hDJ d0 (List.mem_of_mem_erase hd0)
    exact ⟨updJob d.jobId "failed" now j, List.mem_map_of_mem _ hj, (updJob_id _ _ _ j).trans hje⟩
  · dsimp only
    intro d0 hd0 j' hj' hje
    have hd0' := List.mem_of_mem_erase hd0
    rcases List.mem_map.mp hj' with ⟨j, hj, rfl⟩
    rw [updJob_id] at hje
    have hne : d0 ≠ d := (hLN.mem_erase_iff.mp hd0).1
    have hjne : j.id ≠ d.jobId := by
      intro hc
      have hdd : d0.jobId = d.jobId := by rw [← hje, hc]
      exact hne (nodup_map_mem_eq hDN hd0' hd hdd)
    rw [updJob_of_ne _ _ _ _ hjne]
    exact hDR d0 hd0' j hj hje
  · dsimp only
    intro p hp
    obtain ⟨j, hj, hje⟩ := hPJ p hp
    exact ⟨updJob d.jobId "failed" now j, List.mem_map_of_mem _ hj, (updJob_id _ _ _ j).trans hje⟩
  · dsimp only
    intro p hp j' hj' hje
    rcases List.mem_map.mp hj' with ⟨j, hj, rfl⟩
    rw [updJob_id] at hje
    have hjne : j.id ≠ d.jobId := by
      intro hc
      have hpd : p = d.jobId := by rw [← hje, hc]
      exact hdisj (List.mem_map_of_mem _ hd) (hpd ▸ hp)
    rw [updJob_of_ne _ _ _ _ hjne]
    exact hPR p hp j hj hje
  · dsimp only
    exact hDP.sublist (((List.erase_sublist d s.dispatching).map _).append_right _)
  · dsimp only
    intro d0 hd0 x hx
    exact hDS d0 (List.mem_of_mem_erase hd0) x hx
  · dsimp only
    intro x hx
    obtain ⟨j, hj, hje⟩ := hSJ x hx
    exact ⟨updJob d.jobId "failed" now j, List.mem_map_of_mem _ hj, (updJob_id _ _ _ j).trans hje⟩
  · dsimp only
    intro j' hj' hpend x hx
    rcases List.mem_map.mp hj' with ⟨j, hj, rfl⟩
    by_cases hc : j.id = d.jobId
    · rw [updJob_of_eq _ _ _ _ hc] at hpend
      exact absurd (show ("failed" : String) = "pending" from hpend) (by decide)
    · rw [updJob_of_ne _ _ _ _ hc] at hpend ⊢
      exact hPS j hj hpend x hx

theorem inv_finalize (s : State) (i : String) (now : Int) (hi : Inv s)
    (hp : i ∈ s.polling) : Inv (finalizeJobRun i now s) := by
  obtain ⟨hJN, hWF, hDJ, hDR, hPJ, hPR, hDP, hDS, hSJ, hPS, hQT, hFT, hTN, hTS⟩ := hi
  have hPN : s.polling.Nodup := (List.nodup_append.mp hDP).2.1
  have hdisj : (s.dispatching.map DispatchArg.jobId).Disjoint s.polling :=
    (List.nodup_append.mp hDP).2.2
  have hstc := finalizeStatus_cases i s.sends
  unfold finalizeJobRun
  refine ⟨?_, ?_, ?_, ?_, ?_, ?_, ?_, ?_, ?_, ?_, hQT, hFT, hTN, hTS⟩
  · dsimp only
    rw [map_jobId_updateJobCompleted]
    exact hJN
  · dsimp only
    intro j' hj'
    rcases List.mem_map.mp hj' with ⟨j, hj, rfl⟩
    rw [updJob_status]
    split
    · rcases hstc with h | h <;> rw [h] <;> decide
    · exact hWF j hj
  · dsimp only
    intro d0 hd0
    obtain ⟨j, hj, hje⟩ := hDJ d0 hd0
    exact ⟨updJob i _ now j, List.mem_map_of_mem _ hj, (updJob_id _ _ _ j).trans hje⟩
  · dsimp only
    intro d0 hd0 j' hj' hje
    rcases List.mem_map.mp hj' with ⟨j, hj, rfl⟩
    rw [updJob_id] at hje
    have hjne : j.id ≠ i := by
      intro hc
      have hdd : d0.jobId = i := by rw [← hje, hc]
      exact hdisj (List.mem_map_of_mem _ hd0) (hdd ▸ hp)
    rw [updJob_of_ne _ _ _ _ hjne]
    exact hDR d0 hd0 j hj hje
  · dsimp only
    intro p hp0
    obtain ⟨j, hj, hje⟩ := hPJ p (List.mem_of_mem_erase hp0)
    exact ⟨updJob i _ now j, List.mem_map_of_mem _ hj, (updJob_id _ _ _ j).trans hje⟩
  · dsimp only
    intro p hp0 j' hj' hje
    have hp0' := List.mem_of_mem_erase hp0
    rcases List.mem_map.mp hj' with ⟨j, hj, rfl⟩
    rw [updJob_id] at hje
    have hpi : p ≠ i := (hPN.mem_erase_iff.mp hp0).1
    have hjne : j.id ≠ i := by
      intro hc
      exact hpi (by rw [← hje, hc])
    rw [updJob_of_ne _ _ _ _ hjne]
    exact hPR p hp0' j hj hje
  · dsimp only
    exact hDP.sublist ((List.erase_sublist i s.polling).append_left _)
  · dsimp only
    intro d0 hd0 x hx
    exact hDS d0 hd0 x hx
  · dsimp only
    intro x hx
    obtain ⟨j, hj, hje⟩ := hSJ x hx
    exact ⟨updJob i _ now j, List.mem_map_of_mem _ hj, (updJob_id _ _ _ j).trans hje⟩
  · dsimp only
    intro j' hj' hpend x hx
    rcases List.mem_map.mp hj' with ⟨j, hj, rfl⟩
    by_cases hc : j.id = i
    · rw [updJob_of_eq _ _ _ _ hc] at hpend
      rcases hstc with h | h <;> rw [h] at hpend
      · exact absurd (show ("completed" : String) = "pending" from hpend) (by decide)
      · exact absurd
          (show ("completed_with_errors" : String) = "pending" from hpend) (by decide)
    · rw [updJob_of_ne _ _ _ _ hc] at hpend ⊢
      exact hPS j hj hpend x hx

theorem updSending_of_eq (i : String) (x : Send) (h : x.id = i) :
    updSending i x = { x with status := "sending", attempts := x.attempts + 1 } := by
  unfold updSending; simp [h]

theorem inv_create (s : State) (d : DispatchArg)
    (entries : List (Subscriber × String × Bool)) (now : Int) (hi : Inv s)
    (hd : d ∈ s.dispatching)
    (hfresh : ∀ e ∈ entries, ∀ x ∈ s.sends, x.id ≠ e.2.1)
    (hnodup : (entries.map (fun e => e.2.1)).Nodup) :
    Inv (dispatchCreateRun d entries now s) := by
  obtain ⟨hJN, hWF, hDJ, hDR, hPJ, hPR, hDP, hDS, hSJ, hPS, hQT, hFT, hTN, hTS⟩ := hi
  have hDN : (s.dispatching.map DispatchArg.jobId).Nodup := (List.nodup_append.mp hDP).1
  have hLN : s.dispatching.Nodup := hDN.of_map _
  unfold dispatchCreateRun
  refine ⟨hJN, hWF, ?_, ?_, ?_, ?_, ?_, ?_, ?_, ?_, ?_, ?_, ?_, ?_⟩
  · dsimp only
    intro d0 hd0
    exact hDJ d0 (List.mem_of_mem_erase hd0)
  · dsimp only
    intro d0 hd0 j hj hje
    exact hDR d0 (List.mem_of_mem_erase hd0) j hj hje
  · dsimp only
    intro p hp
    rcases List.mem_append.mp hp with h | h
    · exact hPJ p h
    · rcases List.mem_singleton.mp h with rfl
      exact hDJ d hd
  · dsimp only
    intro p hp j hj hje
    rcases List.mem_append.mp hp with h | h
    · exact hPR p h j hj hje
    · rcases List.mem_singleton.mp h with rfl
      exact hDR d hd j hj hje
  · -- dispatcher/poller ids: d.jobId moves from the dispatching side to polling
    dsimp only
    have hpermA : List.Perm (s.dispatching.map DispatchArg.jobId)
        (d.jobId :: (s.dispatching.erase d).map DispatchArg.jobId) := by
      have h := (List.perm_cons_erase hd).map DispatchArg.jobId
      simpa using h
    have hsrc : (d.jobId :: ((s.dispatching.erase d).map DispatchArg.jobId ++ s.polling)).Nodup := by
      have h1 : List.Perm (s.dispatching.map DispatchArg.jobId ++ s.polling)
          (d.jobId :: ((s.dispatching.erase d).map DispatchArg.jobId ++ s.polling)) := by
        have := hpermA.append_right s.polling
        simpa using this
      exact h1.nodup hDP
    have h2 : List.Perm
        ((s.dispatching.erase d).map DispatchArg.jobId ++ (s.polling ++ [d.jobId]))
        (d.jobId :: ((s.dispatching.erase d).map DispatchArg.jobId ++ s.polling)) := by
      rw [← List.append_assoc]
      exact List.perm_append_singleton _ _
    exact h2.symm.nodup hsrc
  · dsimp only
    intro d0 hd0 x hx
    rcases List.mem_append.mp hx with h | h
    · exact hDS d0 (List.mem_of_mem_erase hd0) x h
    · have hx1 := (createSends_sends_jobId h).1
      rw [hx1]
      intro hc
      have hne : d0 ≠ d := (hLN.mem_erase_iff.mp hd0).1
      exact hne (nodup_map_mem_eq hDN (List.mem_of_mem_erase hd0) hd hc.symm)
  · dsimp only
    intro x hx
    rcases List.mem_append.mp hx with h | h
    · exact hSJ x h
    · rw [(createSends_sends_jobId h).1]
      exact hDJ d hd
  · dsimp only
    intro j hj hpend x hx
    rcases List.mem_append.mp hx with h | h
    · exact hPS j hj hpend x h
    · rw [(createSends_sends_jobId h).1]
      intro hc
      have := hDR d hd j hj hc.symm
      rw [hpend] at this
      exact absurd this (by decide)
  · dsimp only
    intro t' ht' x hx hid
    rcases List.mem_append.mp hx with h | h
    · rcases List.mem_append.mp ht' with h' | h'
      · exact hQT t' h' x h hid
      · obtain ⟨e, he, hte⟩ := createSends_task_id_mem h'
        rw [hte] at hid
        exact absurd hid (hfresh e he x h)
    · exact (createSends_sends_jobId h).2.1
  · dsimp only
    intro t' ht' x hx hid
    rcases List.mem_append.mp hx with h | h
    · exact hFT t' ht' x h hid
    · obtain ⟨e, he, hxe⟩ := createSends_send_id_mem h
      obtain ⟨x0, hx0, hx0e⟩ := hTS t' (List.mem_append_right _ ht')
      rw [hid, ← hx0e] at hxe
      exact absurd hxe (hfresh e he x0 hx0)
  · dsimp only
    have hperm : List.Perm
        ((s.taskQ ++ (createSends d now entries).2) ++ s.inFlight)
        ((s.taskQ ++ s.inFlight) ++ (createSends d now entries).2) := by
      rw [List.append_assoc, List.append_assoc]
      exact List.Perm.append_left _ List.perm_append_comm
    refine ((hperm.map SendTask.sendId).symm.nodup ?_)
    rw [List.map_append, List.nodup_append]
    refine ⟨hTN, createSends_taskIds_nodup hnodup, ?_⟩
    intro a ha hb
    rcases List.mem_map.mp ha with ⟨t0, ht0, rfl⟩
    rcases List.mem_map.mp hb with ⟨t1, ht1, he1⟩
    obtain ⟨x0, hx0, hx0e⟩ := hTS t0 ht0
    obtain ⟨e, he, hte⟩ := createSends_task_id_mem ht1
    rw [hte] at he1
    exact hfresh e he x0 hx0 (hx0e.trans he1.symm)
  · dsimp only
    intro t' ht'
    rcases List.mem_append.mp ht' with h | h
    · rcases List.mem_append.mp h with h' | h'
      · obtain ⟨x0, hx0, hx0e⟩ := hTS t' (List.mem_append_left _ h')
        exact ⟨x0, List.mem_append_left _ hx0, hx0e⟩
      · obtain ⟨x0, hx0, hx0e⟩ := createSends_pair h'
        exact ⟨x0, List.mem_append_right _ hx0, hx0e⟩
    · obtain ⟨x0, hx0, hx0e⟩ := hTS t' (List.mem_append_right _ h)
      exact ⟨x0, List.mem_append_left _ hx0, hx0e⟩

theorem inv_workerStart (s : State) (t : SendTask) (rest : List SendTask) (hi : Inv s)
    (hq : s.taskQ = t :: rest) : Inv (workerStartRun t rest s) := by
  obtain ⟨hJN, hWF, hDJ, hDR, hPJ, hPR, hDP, hDS, hSJ, hPS, hQT, hFT, hTN, hTS⟩ := hi
  have htm : t ∈ s.taskQ := by rw [hq]; exact List.mem_cons_self t rest
  have hTN' : (SendTask.sendId t :: (rest ++ s.inFlight).map SendTask.sendId).Nodup := by
    rw [hq] at hTN
    simpa using hTN
  have hhead : t.sendId ∉ (rest ++ s.inFlight).map SendTask.sendId :=
    (List.nodup_cons.mp hTN').1
  unfold workerStartRun
  refine ⟨hJN, hWF, hDJ, hDR, hPJ, hPR, hDP, ?_, ?_, ?_, ?_, ?_, ?_, ?_⟩
  · dsimp only
    intro d0 hd0 x' hx'
    rcases List.mem_map.mp hx' with ⟨x, hx, rfl⟩
    rw [updSending_jobId]
    exact hDS d0 hd0 x hx
  · dsimp only
    intro x' hx'
    rcases List.mem_map.mp hx' with ⟨x, hx, rfl⟩
    rw [updSending_jobId]
    exact hSJ x hx
  · dsimp only
    intro j hj hpend x' hx'
    rcases List.mem_map.mp hx' with ⟨x, hx, rfl⟩
    rw [updSending_jobId]
    exact hPS j hj hpend x hx
  · dsimp only
    intro t' ht' x' hx' hid
    rcases List.mem_map.mp hx' with ⟨x, hx, rfl⟩
    rw [updSending_id] at hid
    have hne : x.id ≠ t.sendId := by
      rw [hid]
      intro hc
      exact hhead (hc ▸ List.mem_map_of_mem _ (List.mem_append_left _ ht'))
    rw [updSending_of_ne _ _ hne]
    exact hQT t' (by rw [hq]; exact List.mem_cons_of_mem t ht') x hx hid
  · dsimp only
    intro t' ht' x' hx' hid
    rcases List.mem_map.mp hx' with ⟨x, hx, rfl⟩
    rw [updSending_id] at hid
    rcases List.mem_append.mp ht' with h' | h'
    · have hne : x.id ≠ t.sendId := by
        rw [hid]
        intro hc
        exact hhead (hc ▸ List.mem_map_of_mem _ (List.mem_append_right _ h'))
      rw [updSending_of_ne _ _ hne]
      exact hFT t' h' x hx hid
    · rcases List.mem_singleton.mp h' with rfl
      rw [updSending_of_eq _ _ hid]
  · dsimp only
    have hperm : List.Perm (rest ++ (s.inFlight ++ [t])) (s.taskQ ++ s.inFlight) := by
      rw [hq, ← List.append_assoc]
      exact List.perm_append_singleton _ _
    exact ((hperm.map SendTask.sendId).symm.nodup hTN)
  · dsimp only
    intro t' ht'
    have ht'' : t' ∈ s.taskQ ++ s.inFlight := by
      rcases List.mem_append.mp ht' with h' | h'
      · exact List.mem_append_left _ (by rw [hq]; exact List.mem_cons_of_mem t h')
      · rcases List.mem_append.mp h' with h'' | h''
        · exact List.mem_append_right _ h''
        · rcases List.mem_singleton.mp h'' with rfl
          exact List.mem_append_left _ htm
    obtain ⟨x0, hx0, hx0e⟩ := hTS t' ht''
    exact ⟨updSending t.sendId x0, List.mem_map_of_mem _ hx0, (updSending_id _ x0).trans hx0e⟩

theorem inv_workerFinishAux (s : State) (t : SendTask) (f : Send → Send)
    (hfid : ∀ x, (f x).id = x.id) (hfjob : ∀ x, (f x).jobId = x.jobId)
    (hfne : ∀ x, x.id ≠ t.sendId → f x = x)
    (hi : Inv s) (ht : t ∈ s.inFlight) :
    Inv { s with sends := s.sends.map f, inFlight := s.inFlight.erase t } := by
  obtain ⟨hJN, hWF, hDJ, hDR, hPJ, hPR, hDP, hDS, hSJ, hPS, hQT, hFT, hTN, hTS⟩ := hi
  have hFN : (s.inFlight.map SendTask.sendId).Nodup := by
    rw [List.map_append] at hTN
    exact (List.nodup_append.mp hTN).2.1
  have hLN : s.inFlight.Nodup := hFN.of_map _
  have hdisj : (s.taskQ.map SendTask.sendId).Disjoint (s.inFlight.map SendTask.sendId) := by
    rw [List.map_append] at hTN
    exact (List.nodup_append.mp hTN).2.2
  refine ⟨hJN, hWF, hDJ, hDR, hPJ, hPR, hDP, ?_, ?_, ?_, ?_, ?_, ?_, ?_⟩
  · dsimp only
    intro d0 hd0 x' hx'
    rcases List.mem_map.mp hx' with ⟨x, hx, rfl⟩
    rw [hfjob]
    exact hDS d0 hd0 x hx
  · dsimp only
    intro x' hx'
    rcases List.mem_map.mp hx' with ⟨x, hx, rfl⟩
    rw [hfjob]
    exact hSJ x hx
  · dsimp only
    intro j hj hpend x' hx'
    rcases List.mem_map.mp hx' with ⟨x, hx, rfl⟩
    rw [hfjob]
    exact hPS j hj hpend x hx
  · dsimp only
    intro t' ht' x' hx' hid
    rcases List.mem_map.mp hx' with ⟨x, hx, rfl⟩
    rw [hfid] at hid
    have hne : x.id ≠ t.sendId := by
      rw [hid]
      intro hc
      exact hdisj (List.mem_map_of_mem _ ht') (hc ▸ List.mem_map_of_mem _ ht)
    rw [hfne _ hne]
    exact hQT t' ht' x hx hid
  · dsimp only
    intro t' ht' x' hx' hid
    rcases List.mem_map.mp hx' with ⟨x, hx, rfl⟩
    rw [hfid] at hid
    have ht'' := List.mem_of_mem_erase ht'
    have hne : x.id ≠ t.sendId := by
      rw [hid]
      intro hc
      exact (hLN.mem_erase_iff.mp ht').1 (nodup_map_mem_eq hFN ht'' ht hc)
    rw [hfne _ hne]
    exact hFT t' ht'' x hx hid
  · dsimp only
    exact hTN.sublist (((List.erase_sublist t s.inFlight).append_left s.taskQ).map _)
  · dsimp only
    intro t' ht'
    have ht'' : t' ∈ s.taskQ ++ s.inFlight := by
      rcases List.mem_append.mp ht' with h' | h'
      · exact List.mem_append_left _ h'
      · exact List.mem_append_right _ (List.mem_of_mem_erase h')
    obtain ⟨x0, hx0, hx0e⟩ := hTS t' ht''
    exact ⟨f x0, List.mem_map_of_mem _ hx0, (hfid x0).trans hx0e⟩

theorem inv_workerFinish (s : State) (t : SendTask) (outcome : Option String) (now : Int)
    (hi : Inv s) (ht : t ∈ s.inFlight) : Inv (workerFinishRun t outcome now s) := by
  cases outcome with
  | none =>
    exact inv_workerFinishAux s t (updSent t.sendId now) (updSent_id _ _)
      (updSent_jobId _ _) (fun x => updSent_of_ne _ _ x) hi ht
  | some e =>
    exact inv_workerFinishAux s t (updFailed t.sendId e) (updFailed_id _ _)
      (updFailed_jobId _ _) (fun x => updFailed_of_ne _ _ x) hi ht

theorem inv_init : Inv initState := by
  unfold Inv
  decide

theorem inv_step {s s' : State} {a : Act} (hi : Inv s) (hs : Step s a s') : Inv s' := by
  cases hs with
  | addSubscriber sub hemail => exact inv_addSubscriberRun s sub hi
  | schedule parseRFC req now newId hfresh =>
    exact inv_scheduleRun parseRFC req now newId s hi hfresh
  | tick now => exact inv_enqueue now s hi
  | dispatchEnumFail d now hd => exact inv_enumFail s d now hi hd
  | dispatchCreate d entries now hd hsubs hfresh hnodup =>
    exact inv_create s d entries now hi hd hfresh hnodup
  | dispatchFinalize i now hp hdone => exact inv_finalize s i now hi hp
  | workerStart t rest hq => exact inv_workerStart s t rest hi hq
  | workerFinishOk t now ht => exact inv_workerFinish s t none now hi ht
  | workerFinishErr t e now ht => exact inv_workerFinish s t (some e) now hi ht

theorem inv_reachable {s : State} (h : Reachable s) : Inv s := by
  induction h with
  | refl => exact inv_init
  | tail _ h2 ih =>
    rcases h2 with ⟨a, hstep⟩
    exact inv_step ih hstep

/-! ### No send row is ever created for a job after its fan-out -/

/-- The ids of the send rows belonging to one job. -/
def sendIdsFor (i : String) (sends : List Send) : List String :=
  (sendsFor i sends).map Send.id

/-- After a job's dispatcher has passed the fan-out point: the job exists,
is no longer `pending`, and no dispatcher in its pre-fan-out phase owns
it.  Under these conditions no operation can create another send row for
the job. -/
def NoMoreSends (i : String) (s : State) : Prop :=
  (∃ j ∈ s.jobs, j.id = i) ∧
  (∀ j ∈ s.jobs, j.id = i → j.status ≠ "pending") ∧
  (∀ d ∈ s.dispatching, d.jobId ≠ i)

theorem sendsFor_map {f : Send → Send} (hfjob : ∀ x, (f x).jobId = x.jobId)
    (i : String) (l : List Send) : sendsFor i (l.map f) = (sendsFor i l).map f := by
  unfold sendsFor
  induction l with
  | nil => rfl
  | cons x xs ih =>
    by_cases h : x.jobId = i
    · simp [List.filter_cons, hfjob x, h, ih]
    · simp [List.filter_cons, hfjob x, h, ih]

theorem sendIdsFor_map {f : Send → Send} (hfid : ∀ x, (f x).id = x.id)
    (hfjob : ∀ x, (f x).jobId = x.jobId) (i : String) (l : List Send) :
    sendIdsFor i (l.map f) = sendIdsFor i l := by
  unfold sendIdsFor
  rw [sendsFor_map hfjob]
  exact map_id_of_id_preserved hfid _

theorem sendsFor_append (i : String) (l₁ l₂ : List Send) :
    sendsFor i (l₁ ++ l₂) = sendsFor i l₁ ++ sendsFor i l₂ := by
  unfold sendsFor
  exact List.filter_append _ _

theorem nm_step {s s' : State} {a : Act} {i : String} (hi : Inv s) (hs : Step s a s')
    (hn : NoMoreSends i s) :
    NoMoreSends i s' ∧ sendIdsFor i s'.sends = sendIdsFor i s.sends := by
  obtain ⟨hex, hnp, hnd⟩ := hn
  cases hs with
  | addSubscriber sub hemail => exact ⟨⟨hex, hnp, hnd⟩, rfl⟩
  | schedule parseRFC req now newId hfresh =>
    obtain ⟨tail, heq, hlen, htail⟩ := scheduleRun_spec parseRFC req now newId s
    rw [heq]
    refine ⟨⟨?_, ?_, hnd⟩, rfl⟩
    · obtain ⟨j, hj, hje⟩ := hex
      exact ⟨j, List.mem_append_left _ hj, hje⟩
    · intro j hj hje
      rcases List.mem_append.mp hj with h | h
      · exact hnp j h hje
      · obtain ⟨j0, hj0, hj0e⟩ := hex
        have hin : i = newId := by rw [← hje, (htail j h).1]
        exact absurd (hj0e.trans hin) (hfresh j0 hj0)
  | tick now =>
    have hjobs := enqueue_jobs_eq now s
    have hdisp := enqueue_dispatching_eq now s
    refine ⟨⟨?_, ?_, ?_⟩, rfl⟩
    · obtain ⟨j, hj, hje⟩ := hex
      rw [hjobs]
      exact ⟨tickF _ j, List.mem_map_of_mem _ hj, (tickF_id _ j).trans hje⟩
    · intro j' hj' hje
      rw [hjobs] at hj'
      rcases List.mem_map.mp hj' with ⟨j, hj, rfl⟩
      rw [tickF_id] at hje
      have hnm : j.id ∉ (dueJobs now s.jobs).map Job.id := by
        intro hm
        rcases List.mem_map.mp hm with ⟨dj, hdj, hde⟩
        obtain ⟨hdjm, hdp, _⟩ := mem_dueJobs.mp hdj
        exact hnp dj hdjm (hde.trans hje) hdp
      rw [tickF_of_not_mem hnm]
      exact hnp j hj hje
    · intro d hd
      rw [hdisp] at hd
      rcases List.mem_append.mp hd with h | h
      · exact hnd d h
      · rcases List.mem_map.mp h with ⟨dj, hdj, rfl⟩
        obtain ⟨hdjm, hdp, _⟩ := mem_dueJobs.mp hdj
        intro hc
        exact hnp dj hdjm hc hdp
  | dispatchEnumFail d now hd =>
    refine ⟨⟨?_, ?_, ?_⟩, rfl⟩
    · obtain ⟨j, hj, hje⟩ := hex
      exact ⟨updJob d.jobId "failed" now j, List.mem_map_of_mem _ hj,
        (updJob_id _ _ _ j).trans hje⟩
    · intro j' hj' hje
      rcases List.mem_map.mp hj' with ⟨j, hj, rfl⟩
      rw [updJob_id] at hje
      by_cases hc : j.id = d.jobId
      · rw [updJob_of_eq _ _ _ _ hc]
        intro hp
        exact absurd (show ("failed" : String) = "pending" from hp) (by decide)
      · rw [updJob_of_ne _ _ _ _ hc]
        exact hnp j hj hje
    · intro d0 hd0
      exact hnd d0 (List.mem_of_mem_erase hd0)
  | dispatchCreate d entries now hd hsubs hfresh hnodup =>
    have hdne : d.jobId ≠ i := hnd d hd
    refine ⟨⟨hex, hnp, ?_⟩, ?_⟩
    · intro d0 hd0
      exact hnd d0 (List.mem_of_mem_erase hd0)
    · show sendIdsFor i (s.sends ++ (createSends d now entries).1) = sendIdsFor i s.sends
      unfold sendIdsFor
      rw [sendsFor_append]
      have hnil : sendsFor i (createSends d now entries).1 = [] := by
        unfold sendsFor
        rw [List.filter_eq_nil_iff]
        intro x hx
        have := (createSends_sends_jobId hx).1
        simp [this, hdne]
      rw [hnil, List.append_nil]
  | dispatchFinalize i0 now hp hdone =>
    refine ⟨⟨?_, ?_, hnd⟩, rfl⟩
    · obtain ⟨j, hj, hje⟩ := hex
      exact ⟨updJob i0 _ now j, List.mem_map_of_mem _ hj, (updJob_id _ _ _ j).trans hje⟩
    · intro j' hj' hje
      rcases List.mem_map.mp hj' with ⟨j, hj, rfl⟩
      rw [updJob_id] at hje
      by_cases hc : j.id = i0
      · rw [updJob_of_eq _ _ _ _ hc]
        intro hpd
        rcases finalizeStatus_cases i0 s.sends with h | h <;> rw [h] at hpd
        · exact absurd (show ("completed" : String) = "pending" from hpd) (by decide)
        · exact absurd
            (show ("completed_with_errors" : String) = "pending" from hpd) (by decide)
      · rw [updJob_of_ne _ _ _ _ hc]
        exact hnp j hj hje
  | workerStart t rest hq =>
    exact ⟨⟨hex, hnp, hnd⟩,
      sendIdsFor_map (updSending_id _) (updSending_jobId _) i s.sends⟩
  | workerFinishOk t now ht =>
    exact ⟨⟨hex, hnp, hnd⟩,
      sendIdsFor_map (updSent_id _ _) (updSent_jobId _ _) i s.sends⟩
  | workerFinishErr t e now ht =>
    exact ⟨⟨hex, hnp, hnd⟩,
      sendIdsFor_map (updFailed_id _ _) (updFailed_jobId _ _) i s.sends⟩

theorem nm_star {s t : State} {i : String} (h : StepStar s t) (hi : Inv s)
    (hn : NoMoreSends i s) :
    Inv t ∧ NoMoreSends i t ∧ sendIdsFor i t.sends = sendIdsFor i s.sends := by
  induction h with
  | refl => exact ⟨hi, hn, rfl⟩
  | tail h1 h2 ih =>
    rcases h2 with ⟨a, hstep⟩
    obtain ⟨hi1, hn1, he1⟩ := ih
    obtain ⟨hn2, he2⟩ := nm_step hi1 hstep hn1
    exact ⟨inv_step hi1 hstep, hn2, he2.trans he1⟩

/-! ### A concrete execution: one subscriber, one job, delivered -/

def sub1 : Subscriber := ⟨"u1", "a@x", 0⟩

def req1 : JobReq := ⟨"s", "b", ""⟩

def darg1 : DispatchArg := ⟨"j1", "s", "b"⟩

def task1 : SendTask := mkTask darg1 sub1 "sd1"

def demo0 : State := initState

def demo1 : State := addSubscriberRun sub1 demo0

def demo2 : State := scheduleRun (fun _ => none) (some req1) 0 "j1" demo1

def demo3 : State := enqueueDueJobs 0 demo2

def demo4 : State := dispatchCreateRun darg1 [(sub1, "sd1", true)] 0 demo3

def demo5 : State := workerStartRun task1 [] demo4

def demo6 : State := workerFinishRun task1 none 1 demo5

def demo7 : State := finalizeJobRun "j1" 1 demo6

theorem step01 : Step demo0 (Act.addSubscriber sub1) demo1 :=
  Step.addSubscriber demo0 sub1 (by decide)

theorem step12 : Step demo1 (Act.schedule (some req1) 0 "j1") demo2 :=
  Step.schedule demo1 (fun _ => none) (some req1) 0 "j1" (by decide)

theorem step23 : Step demo2 (Act.tick 0) demo3 :=
  Step.tick demo2 0

theorem step34 : Step demo3 (Act.dispatchCreate darg1 [(sub1, "sd1", true)] 0) demo4 :=
  Step.dispatchCreate demo3 darg1 [(sub1, "sd1", true)] 0
    (by decide) (by decide) (by decide) (by decide)

theorem step45 : Step demo4 (Act.workerStart task1) demo5 :=
  Step.workerStart demo4 task1 [] (by decide)

theorem step56 : Step demo5 (Act.workerFinish task1 none 1) demo6 :=
  Step.workerFinishOk demo5 task1 1 (by decide)

theorem step67 : Step demo6 (Act.dispatchFinalize "j1" 1) demo7 :=
  Step.dispatchFinalize demo6 "j1" 1 (by decide) (by decide)

theorem reach0 : Reachable demo0 := Relation.ReflTransGen.refl

theorem reach1 : Reachable demo1 := reach0.tail ⟨_, step01⟩

theorem reach2 : Reachable demo2 := reach1.tail ⟨_, step12⟩

theorem reach3 : Reachable demo3 := reach2.tail ⟨_, step23⟩

theorem reach4 : Reachable demo4 := reach3.tail ⟨_, step34⟩

theorem reach5 : Reachable demo5 := reach4.tail ⟨_, step45⟩

theorem reach6 : Reachable demo6 := reach5.tail ⟨_, step56⟩

theorem reach7 : Reachable demo7 := reach6.tail ⟨_, step67⟩

theorem star47 : StepStar demo4 demo7 :=
  ((Relation.ReflTransGen.refl.tail ⟨_, step45⟩).tail ⟨_, step56⟩).tail ⟨_, step67⟩

/-! ### Claim theorems -/

/-- C1: the job-claim UPDATE issued by enqueueDueJobs
(`UPDATE jobs SET status = 'running' WHERE id = ?`, src/main.go line 273)
is conditioned on the id only, not on `status = 'pending'`.  On a job that
is already `running` — a second claim attempt — the statement affects one
row, not the zero rows the specification requires, and on a job in the
terminal status `completed` it rewrites the status back to `running`.
This refutes the claim that the transition is a single conditional update
affecting zero rows on a second attempt. -/
theorem markRunning_unconditional_update :
    (markRunning "j1" [⟨"j1", "s", "b", 0, "running", 0, none⟩]).2 = 1 ∧
    (markRunning "j1" [⟨"j1", "s", "b", 0, "running", 0, none⟩]).2 ≠ 0 ∧
    (markRunning "j1" [⟨"j1", "s", "b", 0, "completed", 0, some 5⟩]).1.map Job.status
      = ["running"] := by
  decide

theorem failedCount_pos_iff (i : String) (sends : List Send) :
    0 < failedCount i sends ↔ ∃ x ∈ sends, x.jobId = i ∧ x.status = "failed" := by
  unfold failedCount
  rw [List.length_pos_iff_exists_mem]
  constructor
  · rintro ⟨x, hx⟩
    rw [List.mem_filter] at hx
    refine ⟨x, hx.1, ?_⟩
    have := hx.2
    simp only [Bool.and_eq_true, beq_iff_eq] at this
    exact this
  · rintro ⟨x, hx, h1, h2⟩
    refine ⟨x, ?_⟩
    rw [List.mem_filter]
    exact ⟨hx, by simp [h1, h2]⟩

/-- C2: when the dispatcher finalizes a job (the wait loop having observed
no `queued`/`sending` send for it), the job row is updated to status
`completed_with_errors` when at least one of its sends is `failed` and to
`completed` otherwise, with the completion timestamp stamped; a job with
no sends at all (zero subscribers at dispatch time) ends `completed`. -/
theorem dispatch_finalize_spec (s : State) (i : String) (now : Int)
    (hdone : noActiveSends i s.sends = true) (j : Job) (hj : j ∈ s.jobs) (hid : j.id = i) :
    ({ j with status := finalizeStatus i s.sends, completedAt := some now }
      ∈ (finalizeJobRun i now s).jobs) ∧
    ((∃ x ∈ s.sends, x.jobId = i ∧ x.status = "failed") →
      finalizeStatus i s.sends = "completed_with_errors") ∧
    ((∀ x ∈ s.sends, x.jobId = i → x.status ≠ "failed") →
      finalizeStatus i s.sends = "completed") ∧
    (sendsFor i s.sends = [] → finalizeStatus i s.sends = "completed") := by
  have hcompleted : (∀ x ∈ s.sends, x.jobId = i → x.status ≠ "failed") →
      finalizeStatus i s.sends = "completed" := by
    intro h
    unfold finalizeStatus
    rw [if_neg]
    intro hpos
    obtain ⟨x, hx, h1, h2⟩ := (failedCount_pos_iff i s.sends).mp hpos
    exact h x hx h1 h2
  refine ⟨?_, ?_, hcompleted, ?_⟩
  · have h := List.mem_map_of_mem (updJob i (finalizeStatus i s.sends) now) hj
    rw [updJob_of_eq _ _ _ _ hid] at h
    exact h
  · rintro ⟨x, hx, h1, h2⟩
    unfold finalizeStatus
    rw [if_pos ((failedCount_pos_iff i s.sends).mpr ⟨x, hx, h1, h2⟩)]
  · intro hnil
    apply hcompleted
    intro x hx h1 _
    unfold sendsFor at hnil
    rw [List.filter_eq_nil_iff] at hnil
    exact hnil x hx (by simp [h1])

/-- C2 witness: at the concrete state demo6 (one send, already `sent`),
finalization moves job j1 to `completed` with completion time 1. -/
theorem dispatch_finalize_spec_witness :
    noActiveSends "j1" demo6.sends = true ∧
    (⟨"j1", "s", "b", 0, "running", 0, none⟩ : Job) ∈ demo6.jobs ∧
    ({ (⟨"j1", "s", "b", 0, "running", 0, none⟩ : Job) with
        status := finalizeStatus "j1" demo6.sends, completedAt := some 1 }
      ∈ (finalizeJobRun "j1" 1 demo6).jobs) ∧
    finalizeStatus "j1" demo6.sends = "completed" :=
  ⟨by decide, by decide,
   (dispatch_finalize_spec demo6 "j1" 1 (by decide)
      ⟨"j1", "s", "b", 0, "running", 0, none⟩ (by decide) (by decide)).1,
   (dispatch_finalize_spec demo6 "j1" 1 (by decide)
      ⟨"j1", "s", "b", 0, "running", 0, none⟩ (by decide) (by decide)).2.2.1 (by decide)⟩

/-- C3: when subscriber enumeration fails at the start of dispatchJob, the
job is marked `failed` with a completion timestamp, the sends table is
untouched, and — in any invariant state where this dispatcher had not yet
fanned out — zero send rows exist for that job. -/
theorem dispatch_enumfail_spec (s : State) (d : DispatchArg) (now : Int)
    (hi : Inv s) (hd : d ∈ s.dispatching) :
    (dispatchEnumFailRun d now s).sends = s.sends ∧
    sendsFor d.jobId (dispatchEnumFailRun d now s).sends = [] ∧
    (∀ j ∈ s.jobs, j.id = d.jobId →
      ({ j with status := "failed", completedAt := some now }
        ∈ (dispatchEnumFailRun d now s).jobs)) := by
  obtain ⟨hJN, hWF, hDJ, hDR, hPJ, hPR, hDP, hDS, hSJ, hPS, hQT, hFT, hTN, hTS⟩ := hi
  refine ⟨rfl, ?_, ?_⟩
  · show sendsFor d.jobId s.sends = []
    unfold sendsFor
    rw [List.filter_eq_nil_iff]
    intro x hx
    simp [hDS d hd x hx]
  · intro j hj hje
    have h := List.mem_map_of_mem (updJob d.jobId "failed" now) hj
    rw [updJob_of_eq _ _ _ _ hje] at h
    exact h

/-- C3 witness: at demo3, where dispatcher darg1 has been spawned for job
j1, an enumeration failure marks j1 `failed` and leaves zero sends. -/
theorem dispatch_enumfail_spec_witness :
    (dispatchEnumFailRun darg1 0 demo3).sends = demo3.sends ∧
    sendsFor "j1" (dispatchEnumFailRun darg1 0 demo3).sends = [] ∧
    ((⟨"j1", "s", "b", 0, "failed", 0, some 0⟩ : Job)
      ∈ (dispatchEnumFailRun darg1 0 demo3).jobs) := by
  have h := dispatch_enumfail_spec demo3 darg1 0 (inv_reachable reach3) (by decide)
  exact ⟨h.1, h.2.1, h.2.2 ⟨"j1", "s", "b", 0, "running", 0, none⟩ (by decide) (by decide)⟩

/-! ### Job status machine (C4) -/

/-- The edges of the job status machine in §3 of the specification:
`pending → running → (completed | completed_with_errors | failed)`. -/
def statusEdge (a b : String) : Prop :=
  (a = "pending" ∧ b = "running") ∨
  (a = "running" ∧ (b = "completed" ∨ b = "completed_with_errors" ∨ b = "failed"))

/-- A terminal job status per the glossary of the specification. -/
def jobTerminal (st : String) : Prop :=
  st = "completed" ∨ st = "completed_with_errors" ∨ st = "failed"

/-- The status of a job row by id, as listJobsHandler would report it. -/
def jobStatus (i : String) (s : State) : Option String :=
  (s.jobs.find? (fun j => j.id == i)).map Job.status

theorem step_edges {s s' : State} {a : Act} (hi : Inv s) (hs : Step s a s') :
    ∀ j ∈ s.jobs, ∃ j' ∈ s'.jobs, j'.id = j.id ∧
      (j'.status = j.status ∨ statusEdge j.status j'.status) ∧
      (jobTerminal j.status → j' = j) := by
  obtain ⟨hJN, hWF, hDJ, hDR, hPJ, hPR, hDP, hDS, hSJ, hPS, hQT, hFT, hTN, hTS⟩ := hi
  cases hs with
  | addSubscriber sub hemail =>
    intro j hj
    exact ⟨j, hj, rfl, Or.inl rfl, fun _ => rfl⟩
  | schedule parseRFC req now newId hfresh =>
    intro j hj
    obtain ⟨tail, heq, hlen, htail⟩ := scheduleRun_spec parseRFC req now newId s
    rw [heq]
    exact ⟨j, List.mem_append_left _ hj, rfl, Or.inl rfl, fun _ => rfl⟩
  | tick now =>
    intro j hj
    rw [enqueue_jobs_eq]
    refine ⟨tickF _ j, List.mem_map_of_mem _ hj, tickF_id _ j, ?_, ?_⟩
    · by_cases hm : j.id ∈ (dueJobs now s.jobs).map Job.id
      · rw [tickF_of_mem hm]
        exact Or.inr (Or.inl ⟨((mem_dueIds hJN hj).mp hm).1, rfl⟩)
      · rw [tickF_of_not_mem hm]
        exact Or.inl rfl
    · intro hterm
      have hnp : j.status ≠ "pending" := by
        rcases hterm with h | h | h <;> rw [h] <;> decide
      have hm : j.id ∉ (dueJobs now s.jobs).map Job.id :=
        fun hm => hnp ((mem_dueIds hJN hj).mp hm).1
      rw [tickF_of_not_mem hm]
  | dispatchEnumFail d now hd =>
    intro j hj
    refine ⟨updJob d.jobId "failed" now j, List.mem_map_of_mem _ hj, updJob_id _ _ _ j, ?_, ?_⟩
    · by_cases hc : j.id = d.jobId
      · rw [updJob_of_eq _ _ _ _ hc]
        exact Or.inr (Or.inr ⟨hDR d hd j hj hc, Or.inr (Or.inr rfl)⟩)
      · rw [updJob_of_ne _ _ _ _ hc]
        exact Or.inl rfl
    · intro hterm
      by_cases hc : j.id = d.jobId
      · have hrun := hDR d hd j hj hc
        rcases hterm with h | h | h <;> rw [h] at hrun <;> exact absurd hrun (by decide)
      · rw [updJob_of_ne _ _ _ _ hc]
  | dispatchCreate d entries now hd hsubs hfresh hnodup =>
    intro j hj
    exact ⟨j, hj, rfl, Or.inl rfl, fun _ => rfl⟩
  | dispatchFinalize i now hp hdone =>
    intro j hj
    refine ⟨updJob i (finalizeStatus i s.sends) now j, List.mem_map_of_mem _ hj,
      updJob_id _ _ _ j, ?_, ?_⟩
    · by_cases hc : j.id = i
      · rw [updJob_of_eq _ _ _ _ hc]
        refine Or.inr (Or.inr ⟨hPR i hp j hj hc, ?_⟩)
        rcases finalizeStatus_cases i s.sends with h | h <;> rw [h]
        · exact Or.inl rfl
        · exact Or.inr (Or.inl rfl)
      · rw [updJob_of_ne _ _ _ _ hc]
        exact Or.inl rfl
    · intro hterm
      by_cases hc : j.id = i
      · have hrun := hPR i hp j hj hc
        rcases hterm with h | h | h <;> rw [h] at hrun <;> exact absurd hrun (by decide)
      · rw [updJob_of_ne _ _ _ _ hc]
  | workerStart t rest hq =>
    intro j hj
    exact ⟨j, hj, rfl, Or.inl rfl, fun _ => rfl⟩
  | workerFinishOk t now ht =>
    intro j hj
    exact ⟨j, hj, rfl, Or.inl rfl, fun _ => rfl⟩
  | workerFinishErr t e now ht =>
    intro j hj
    exact ⟨j, hj, rfl, Or.inl rfl, fun _ => rfl⟩

/-- C4 counterexample: `running` is one of the four right-hand statuses of
the diagram `pending → running → {completed, completed_with_errors,
failed}`, yet it is not absorbing: from the reachable state demo6 the
dispatcher finalization step moves job j1 out of `running` into
`completed`.  So "the four right-hand statuses are absorbing" is false as
stated. -/
theorem job_running_not_absorbing :
    Reachable demo6 ∧
    Step demo6 (Act.dispatchFinalize "j1" 1) demo7 ∧
    jobStatus "j1" demo6 = some "running" ∧
    jobStatus "j1" demo7 = some "completed" :=
  ⟨reach6, step67, by decide, by decide⟩

/-- C4 amended: in every reachable state every job status is one of the
five defined values; every step changes a job's status only along an edge
of `pending → running → {completed, completed_with_errors, failed}`; and
the three terminal statuses `completed`, `completed_with_errors`,
`failed` are absorbing (the job row is left untouched). -/
theorem job_status_machine :
    ∀ s : State, Reachable s →
      (∀ j ∈ s.jobs, j.status ∈ jobStatuses) ∧
      (∀ (a : Act) (s' : State), Step s a s' → ∀ j ∈ s.jobs,
        ∃ j' ∈ s'.jobs, j'.id = j.id ∧
          (j'.status = j.status ∨ statusEdge j.status j'.status) ∧
          (jobTerminal j.status → j' = j)) := by
  intro s hreach
  have hi := inv_reachable hreach
  exact ⟨hi.2.1, fun a s' hs => step_edges hi hs⟩

/-- C4 amended witness: at demo2 the pending job j1 exists with a legal
status, and the concrete tick step moves it along the edge
`pending → running`. -/
theorem job_status_machine_witness :
    ((⟨"j1", "s", "b", 0, "pending", 0, none⟩ : Job) ∈ demo2.jobs) ∧
    (∃ j' ∈ demo3.jobs, j'.id = "j1" ∧
      (j'.status = "pending" ∨ statusEdge "pending" j'.status) ∧
      (jobTerminal "pending" → j' = ⟨"j1", "s", "b", 0, "pending", 0, none⟩)) := by
  refine ⟨by decide, ?_⟩
  exact (job_status_machine demo2 reach2).2 (Act.tick 0) demo3 step23
    ⟨"j1", "s", "b", 0, "pending", 0, none⟩ (by decide)

/-- C5: a successful fan-out step for job d.jobId with every insertion
succeeding creates exactly one send row per subscriber present at
dispatch time — their count equals the subscriber count and their
subscriber ids enumerate the subscribers — and afterwards no step of the
system ever changes the set of send ids belonging to that job. -/
theorem dispatch_fanout_exact :
    ∀ (s : State) (d : DispatchArg) (entries : List (Subscriber × String × Bool))
      (now : Int) (s' : State),
      Inv s → Step s (Act.dispatchCreate d entries now) s' →
      (∀ e ∈ entries, e.2.2 = true) →
      (sendsFor d.jobId s'.sends).length = s.subscribers.length ∧
      (sendsFor d.jobId s'.sends).map Send.subscriberId = s.subscribers.map Subscriber.id ∧
      (∀ s'' : State, StepStar s' s'' →
        sendIdsFor d.jobId s''.sends = sendIdsFor d.jobId s'.sends) := by
  intro s d entries now s' hi hstep hall
  cases hstep
  case dispatchCreate =>
    rename_i hd hsubs hfresh hnodup
    have hs' : Inv (dispatchCreateRun d entries now s) :=
      inv_create s d entries now hi hd hfresh hnodup
    obtain ⟨hJN, hWF, hDJ, hDR, hPJ, hPR, hDP, hDS, hSJ, hPS, hQT, hFT, hTN, hTS⟩ := hi
    have hDN : (s.dispatching.map DispatchArg.jobId).Nodup := (List.nodup_append.mp hDP).1
    have hfilter : entries.filter (fun e => e.2.2) = entries :=
      List.filter_eq_self.mpr (fun e he => hall e he)
    have hN : (createSends d now entries).1
        = entries.map (fun e => mkSend d.jobId e.1 e.2.1 now) := by
      unfold createSends
      dsimp only
      rw [hfilter]
    have hsends : sendsFor d.jobId (dispatchCreateRun d entries now s).sends
        = (createSends d now entries).1 := by
      show sendsFor d.jobId (s.sends ++ (createSends d now entries).1) = _
      rw [sendsFor_append]
      have h1 : sendsFor d.jobId s.sends = [] := by
        unfold sendsFor
        rw [List.filter_eq_nil_iff]
        intro x hx
        simp [hDS d hd x hx]
      have h2 : sendsFor d.jobId (createSends d now entries).1
          = (createSends d now entries).1 := by
        unfold sendsFor
        apply List.filter_eq_self.mpr
        intro x hx
        simp [(createSends_sends_jobId hx).1]
      rw [h1, h2, List.nil_append]
    refine ⟨?_, ?_, ?_⟩
    · rw [hsends, hN, List.length_map, ← hsubs, List.length_map]
    · rw [hsends, hN, List.map_map, ← hsubs, List.map_map]
      rfl
    · intro s'' hstar
      have hnms : NoMoreSends d.jobId (dispatchCreateRun d entries now s) := by
        refine ⟨hDJ d hd, ?_, ?_⟩
        · intro j hj hje
          rw [hDR d hd j hj hje]
          decide
        · intro d0 hd0
          have hne : d0 ≠ d := ((hDN.of_map _).mem_erase_iff.mp hd0).1
          intro hc
          exact hne (nodup_map_mem_eq hDN (List.mem_of_mem_erase hd0) hd hc)
      exact (nm_star hstar hs' hnms).2.2

/-- C5 witness: at demo3 the fan-out step for j1 over the single
subscriber creates exactly one send, for subscriber u1, and three steps
later (delivery and finalization) the job's send-id set is unchanged. -/
theorem dispatch_fanout_exact_witness :
    (sendsFor "j1" demo4.sends).length = demo3.subscribers.length ∧
    (sendsFor "j1" demo4.sends).map Send.subscriberId = demo3.subscribers.map Subscriber.id ∧
    sendIdsFor "j1" demo7.sends = sendIdsFor "j1" demo4.sends := by
  have h := dispatch_fanout_exact demo3 darg1 [(sub1, "sd1", true)] 0 demo4
    (inv_reachable reach3) step34 (by decide)
  exact ⟨h.1, h.2.1, h.2.2 demo7 star47⟩

/-- C6: a tick claims a job only when it is `pending` and due — any other
job row is left unchanged — and does claim a due pending job; moreover no
step of the system moves a pending job out of `pending` except a tick
whose current time has reached the job's scheduled time. -/
theorem scheduler_claims_only_due :
    ∀ (s : State) (now : Int) (j : Job),
      (s.jobs.map Job.id).Nodup → j ∈ s.jobs →
      (¬(j.status = "pending" ∧ j.scheduledAt ≤ now) → j ∈ (enqueueDueJobs now s).jobs) ∧
      (j.status = "pending" → j.scheduledAt ≤ now →
        { j with status := "running" } ∈ (enqueueDueJobs now s).jobs) ∧
      (∀ (a : Act) (s' : State), Step s a s' → Inv s → j.status = "pending" →
        (∀ n : Int, a = Act.tick n → n < j.scheduledAt) → j ∈ s'.jobs) := by
  intro s now j hn hj
  refine ⟨?_, ?_, ?_⟩
  · intro hnot
    have hm : j.id ∉ (dueJobs now s.jobs).map Job.id :=
      fun hm => hnot ((mem_dueIds hn hj).mp hm)
    rw [enqueue_jobs_eq]
    have h := List.mem_map_of_mem (tickF ((dueJobs now s.jobs).map Job.id)) hj
    rw [tickF_of_not_mem hm] at h
    exact h
  · intro h1 h2
    have hm : j.id ∈ (dueJobs now s.jobs).map Job.id := (mem_dueIds hn hj).mpr ⟨h1, h2⟩
    rw [enqueue_jobs_eq]
    have h := List.mem_map_of_mem (tickF ((dueJobs now s.jobs).map Job.id)) hj
    rw [tickF_of_mem hm] at h
    exact h
  · intro a s' hs hi hpend htick
    obtain ⟨hJN, hWF, hDJ, hDR, hPJ, hPR, hDP, hDS, hSJ, hPS, hQT, hFT, hTN, hTS⟩ := hi
    cases hs with
    | addSubscriber sub hemail => exact hj
    | schedule parseRFC req now2 newId hfresh =>
      obtain ⟨tail, heq, hlen, htail⟩ := scheduleRun_spec parseRFC req now2 newId s
      rw [heq]
      exact List.mem_append_left _ hj
    | tick n =>
      have hlt : n < j.scheduledAt := htick n rfl
      have hm : j.id ∉ (dueJobs n s.jobs).map Job.id := by
        intro hm
        have := ((mem_dueIds hJN hj).mp hm).2
        omega
      rw [enqueue_jobs_eq]
      have h := List.mem_map_of_mem (tickF ((dueJobs n s.jobs).map Job.id)) hj
      rw [tickF_of_not_mem hm] at h
      exact h
    | dispatchEnumFail d now2 hd =>
      have hc : j.id ≠ d.jobId := by
        intro hc
        have hrun := hDR d hd j hj hc
        rw [hpend] at hrun
        exact absurd hrun (by decide)
      have h := List.mem_map_of_mem (updJob d.jobId "failed" now2) hj
      rw [updJob_of_ne _ _ _ _ hc] at h
      exact h
    | dispatchCreate d entries now2 hd hsubs hfresh hnodup => exact hj
    | dispatchFinalize i now2 hp hdone =>
      have hc : j.id ≠ i := by
        intro hc
        have hrun := hPR i hp j hj hc
        rw [hpend] at hrun
        exact absurd hrun (by decide)
      have h := List.mem_map_of_mem (updJob i (finalizeStatus i s.sends) now2) hj
      rw [updJob_of_ne _ _ _ _ hc] at h
      exact h
    | workerStart t rest hq => exact hj
    | workerFinishOk t now2 ht => exact hj
    | workerFinishErr t e now2 ht => exact hj

/-- C6 witness: the pending job j1 (due at 0) is left pending by a tick
at time -1, is claimed by the tick at time 0, and is left untouched by a
non-tick step. -/
theorem scheduler_claims_only_due_witness :
    ((⟨"j1", "s", "b", 0, "pending", 0, none⟩ : Job) ∈ (enqueueDueJobs (-1) demo2).jobs) ∧
    ({ (⟨"j1", "s", "b", 0, "pending", 0, none⟩ : Job) with status := "running" }
      ∈ demo3.jobs) ∧
    ((⟨"j1", "s", "b", 0, "pending", 0, none⟩ : Job)
      ∈ (addSubscriberRun ⟨"u2", "b@x", 0⟩ demo2).jobs) := by
  have h := scheduler_claims_only_due demo2 0 ⟨"j1", "s", "b", 0, "pending", 0, none⟩
    (by decide) (by decide)
  have h1 := scheduler_claims_only_due demo2 (-1) ⟨"j1", "s", "b", 0, "pending", 0, none⟩
    (by decide) (by decide)
  refine ⟨h1.1 (by decide), h.2.1 (by decide) (by decide), ?_⟩
  refine h.2.2 (Act.addSubscriber ⟨"u2", "b@x", 0⟩) _
    (Step.addSubscriber demo2 ⟨"u2", "b@x", 0⟩ (by decide)) (inv_reachable reach2)
    (by decide) ?_
  intro n hcon
  cases hcon

/-- C7: in any reachable state, no step of the system modifies a send row
whose status is `sent` or `failed`: the row is still present, unchanged —
in particular a failed send is never re-queued. -/
theorem send_terminal_absorbing :
    ∀ s : State, Reachable s → ∀ (a : Act) (s' : State), Step s a s' →
      ∀ x ∈ s.sends, (x.status = "sent" ∨ x.status = "failed") → x ∈ s'.sends := by
  intro s hreach a s' hs x hx hterm
  have hi := inv_reachable hreach
  obtain ⟨hJN, hWF, hDJ, hDR, hPJ, hPR, hDP, hDS, hSJ, hPS, hQT, hFT, hTN, hTS⟩ := hi
  cases hs with
  | addSubscriber sub hemail => exact hx
  | schedule parseRFC req now newId hfresh =>
    obtain ⟨tail, heq, hlen, htail⟩ := scheduleRun_spec parseRFC req now newId s
    rw [heq]
    exact hx
  | tick now => exact hx
  | dispatchEnumFail d now hd => exact hx
  | dispatchCreate d entries now hd hsubs hfresh hnodup => exact List.mem_append_left _ hx
  | dispatchFinalize i now hp hdone => exact hx
  | workerStart t rest hq =>
    have hne : x.id ≠ t.sendId := by
      intro hc
      have hq' := hQT t (by rw [hq]; exact List.mem_cons_self t rest) x hx hc
      rcases hterm with h | h <;> rw [h] at hq' <;> exact absurd hq' (by decide)
    have h := List.mem_map_of_mem (updSending t.sendId) hx
    rw [updSending_of_ne _ _ hne] at h
    exact h
  | workerFinishOk t now ht =>
    have hne : x.id ≠ t.sendId := by
      intro hc
      have hf' := hFT t ht x hx hc
      rcases hterm with h | h <;> rw [h] at hf' <;> exact absurd hf' (by decide)
    have h := List.mem_map_of_mem (updSent t.sendId now) hx
    rw [updSent_of_ne _ _ _ hne] at h
    exact h
  | workerFinishErr t e now ht =>
    have hne : x.id ≠ t.sendId := by
      intro hc
      have hf' := hFT t ht x hx hc
      rcases hterm with h | h <;> rw [h] at hf' <;> exact absurd hf' (by decide)
    have h := List.mem_map_of_mem (updFailed t.sendId e) hx
    rw [updFailed_of_ne _ _ _ hne] at h
    exact h

/-- C7 witness: the `sent` send of demo6 is untouched by the concrete
finalization step into demo7. -/
theorem send_terminal_absorbing_witness :
    ((⟨"sd1", "j1", "u1", "a@x", "sent", 1, none, 0, some 1⟩ : Send) ∈ demo6.sends) ∧
    ((⟨"sd1", "j1", "u1", "a@x", "sent", 1, none, 0, some 1⟩ : Send) ∈ demo7.sends) :=
  ⟨by decide,
   send_terminal_absorbing demo6 reach6 (Act.dispatchFinalize "j1" 1) demo7 step67
     ⟨"sd1", "j1", "u1", "a@x", "sent", 1, none, 0, some 1⟩ (by decide) (Or.inl rfl)⟩

theorem updSent_of_eq (i : String) (now : Int) (x : Send) (h : x.id = i) :
    updSent i now x = { x with status := "sent", sentAt := some now } := by
  unfold updSent; simp [h]

theorem updFailed_of_eq (i e : String) (x : Send) (h : x.id = i) :
    updFailed i e x = { x with status := "failed", lastError := some e } := by
  unfold updFailed; simp [h]

/-- C8: a worker processing the task at the head of the queue first marks
its send `sending` and increments the attempt counter (so a freshly
created send shows attempts 1), then consumes the one doSend outcome: on
success the send ends `sent` with the sent time stamped, on failure it
ends `failed` with the error text stored in last_error; either way the
task is consumed and the rest of the queue remains for the next task. -/
theorem worker_processes_task :
    ∀ (s : State) (t : SendTask) (rest : List SendTask) (outcome : Option String)
      (now : Int) (x : Send),
      s.taskQ = t :: rest → x ∈ s.sends → x.id = t.sendId →
      ({ x with status := "sending", attempts := x.attempts + 1 }
          ∈ (workerStartRun t rest s).sends) ∧
      (x.attempts = 0 →
        ∃ y ∈ (workerStartRun t rest s).sends, y.id = x.id ∧ y.attempts = 1) ∧
      (outcome = none →
        ({ x with status := "sent", attempts := x.attempts + 1, sentAt := some now }
          ∈ (workerFinishRun t outcome now (workerStartRun t rest s)).sends)) ∧
      (∀ e : String, outcome = some e →
        ({ x with status := "failed", attempts := x.attempts + 1, lastError := some e }
          ∈ (workerFinishRun t outcome now (workerStartRun t rest s)).sends)) ∧
      (workerFinishRun t outcome now (workerStartRun t rest s)).taskQ = rest := by
  intro s t rest outcome now x hq hx hid
  have h1 : updSending t.sendId x = { x with status := "sending", attempts := x.attempts + 1 } :=
    updSending_of_eq _ _ hid
  have hm1 : ({ x with status := "sending", attempts := x.attempts + 1 } : Send)
      ∈ (workerStartRun t rest s).sends := by
    have h := List.mem_map_of_mem (updSending t.sendId) hx
    rw [h1] at h
    exact h
  refine ⟨hm1, ?_, ?_, ?_, ?_⟩
  · intro h0
    exact ⟨_, hm1, rfl, by rw [h0]⟩
  · rintro rfl
    have h2 := List.mem_map_of_mem (updSent t.sendId now) hm1
    rw [updSent_of_eq _ _ _
      (show ({ x with status := "sending", attempts := x.attempts + 1 } : Send).id = t.sendId
        from hid)] at h2
    exact h2
  · rintro e rfl
    have h2 := List.mem_map_of_mem (updFailed t.sendId e) hm1
    rw [updFailed_of_eq _ _ _
      (show ({ x with status := "sending", attempts := x.attempts + 1 } : Send).id = t.sendId
        from hid)] at h2
    exact h2
  · cases outcome <;> rfl

/-- C8 witness: processing the fresh queued send of demo4 with a
successful outcome yields attempts 1, status `sending` after the first
update, then `sent` with sent time 1; the queue is drained. -/
theorem worker_processes_task_witness :
    ((⟨"sd1", "j1", "u1", "a@x", "sending", 1, none, 0, none⟩ : Send) ∈ demo5.sends) ∧
    ((⟨"sd1", "j1", "u1", "a@x", "sent", 1, none, 0, some 1⟩ : Send) ∈ demo6.sends) ∧
    demo6.taskQ = [] := by
  have h := worker_processes_task demo4 task1 [] none 1
    ⟨"sd1", "j1", "u1", "a@x", "queued", 0, none, 0, none⟩ (by decide) (by decide) (by decide)
  exact ⟨h.1, h.2.2.1 rfl, h.2.2.2.2⟩

/-- C9: a scheduler tick leaves every job that is already `running`
untouched, creates no send rows, and spawns no dispatcher for such a job,
so re-running the tick neither re-claims the job nor leads to duplicate
sends. -/
theorem tick_idempotent_on_running :
    ∀ (s : State) (now : Int) (j : Job),
      (s.jobs.map Job.id).Nodup → j ∈ s.jobs → j.status = "running" →
      j ∈ (enqueueDueJobs now s).jobs ∧
      (enqueueDueJobs now s).sends = s.sends ∧
      (∀ d ∈ (enqueueDueJobs now s).dispatching, d ∉ s.dispatching → d.jobId ≠ j.id) := by
  intro s now j hn hj hrun
  have hm : j.id ∉ (dueJobs now s.jobs).map Job.id := by
    intro hm
    have hp := ((mem_dueIds hn hj).mp hm).1
    rw [hrun] at hp
    exact absurd hp (by decide)
  refine ⟨?_, rfl, ?_⟩
  · rw [enqueue_jobs_eq]
    have h := List.mem_map_of_mem (tickF ((dueJobs now s.jobs).map Job.id)) hj
    rw [tickF_of_not_mem hm] at h
    exact h
  · intro d hd hnot
    rw [enqueue_dispatching_eq] at hd
    rcases List.mem_append.mp hd with h | h
    · exact absurd h hnot
    · rcases List.mem_map.mp h with ⟨dj, hdj, rfl⟩
      obtain ⟨hdjm, hpend, _⟩ := mem_dueJobs.mp hdj
      intro hc
      have hdje : dj = j := nodup_map_mem_eq hn hdjm hj hc
      rw [hdje, hrun] at hpend
      exact absurd hpend (by decide)

/-- C9 witness: a second tick at time 0 on demo3 (job j1 already
`running`) leaves the job row present unchanged and the sends table
unchanged. -/
theorem tick_idempotent_on_running_witness :
    ((⟨"j1", "s", "b", 0, "running", 0, none⟩ : Job) ∈ (enqueueDueJobs 0 demo3).jobs) ∧
    (enqueueDueJobs 0 demo3).sends = demo3.sends := by
  have h := tick_idempotent_on_running demo3 0 ⟨"j1", "s", "b", 0, "running", 0, none⟩
    (by decide) (by decide) (by decide)
  exact ⟨h.1, h.2.1⟩

/-- C10: the schedule handler inserts a `pending` job row exactly when
the request decodes, subject and body are non-empty after trimming, and
scheduled_at is empty (due time defaults to now), RFC3339-parseable, or a
decimal integer of unix seconds; every rejected request yields an error
response and leaves the store unchanged. -/
theorem schedule_handler_correct :
    ∀ (parseRFC : String → Option Int) (req : Option JobReq) (now : Int) (newId : String)
      (s : State),
      (req = none →
        scheduleJobHandler parseRFC req now newId s = (.err 400 "invalid json", s)) ∧
      (∀ r : JobReq, req = some r → (trimSpace r.subject = "" ∨ trimSpace r.body = "") →
        scheduleJobHandler parseRFC req now newId s
          = (.err 400 "subject and body required", s)) ∧
      (∀ r : JobReq, req = some r → trimSpace r.subject ≠ "" → trimSpace r.body ≠ "" →
        (r.scheduledAt = "" →
          scheduleJobHandler parseRFC req now newId s
            = (.ok newId now, { s with jobs := s.jobs ++
                [⟨newId, trimSpace r.subject, trimSpace r.body, now, "pending", now, none⟩] })) ∧
        (∀ ts : Int, r.scheduledAt ≠ "" → parseRFC r.scheduledAt = some ts →
          scheduleJobHandler parseRFC req now newId s
            = (.ok newId ts, { s with jobs := s.jobs ++
                [⟨newId, trimSpace r.subject, trimSpace r.body, ts, "pending", now, none⟩] })) ∧
        (∀ ts : Int, r.scheduledAt ≠ "" → parseRFC r.scheduledAt = none →
            parseDecInt64 r.scheduledAt = some ts →
          scheduleJobHandler parseRFC req now newId s
            = (.ok newId ts, { s with jobs := s.jobs ++
                [⟨newId, trimSpace r.subject, trimSpace r.body, ts, "pending", now, none⟩] })) ∧
        (r.scheduledAt ≠ "" → parseRFC r.scheduledAt = none →
            parseDecInt64 r.scheduledAt = none →
          scheduleJobHandler parseRFC req now newId s
            = (.err 400 "invalid scheduled_at", s))) := by
  intro parseRFC req now newId s
  refine ⟨?_, ?_, ?_⟩
  · rintro rfl
    rfl
  · rintro r rfl hor
    show (if trimSpace r.subject = "" ∨ trimSpace r.body = "" then _ else _) = _
    rw [if_pos hor]
  · rintro r rfl hsb hbd
    have hcond : ¬(trimSpace r.subject = "" ∨ trimSpace r.body = "") := by
      rintro (h | h)
      · exact hsb h
      · exact hbd h
    refine ⟨?_, ?_, ?_, ?_⟩
    · intro he
      show (if trimSpace r.subject = "" ∨ trimSpace r.body = "" then _ else _) = _
      rw [if_neg hcond, if_pos he]
    · intro ts hne hparse
      show (if trimSpace r.subject = "" ∨ trimSpace r.body = "" then _ else _) = _
      rw [if_neg hcond, if_neg hne, hparse]
    · intro ts hne hparse hdec
      show (if trimSpace r.subject = "" ∨ trimSpace r.body = "" then _ else _) = _
      rw [if_neg hcond, if_neg hne, hparse, hdec]
    · intro hne hparse hdec
      show (if trimSpace r.subject = "" ∨ trimSpace r.body = "" then _ else _) = _
      rw [if_neg hcond, if_neg hne, hparse, hdec]

/-- C10 witness: a request with trimmable subject and a decimal
scheduled_at inserts a pending row due at 12; a blank subject and an
unparseable scheduled_at are each rejected with the store unchanged. -/
theorem schedule_handler_correct_witness :
    scheduleJobHandler (fun _ => none) (some ⟨" s ", "b", "12"⟩) 5 "id1" initState
      = (.ok "id1" 12, { initState with jobs := initState.jobs ++
          [⟨"id1", trimSpace " s ", trimSpace "b", 12, "pending", 5, none⟩] }) ∧
    scheduleJobHandler (fun _ => none) (some ⟨" ", "b", ""⟩) 5 "id1" initState
      = (.err 400 "subject and body required", initState) ∧
    scheduleJobHandler (fun _ => none) (some ⟨"s", "b", "xx"⟩) 5 "id1" initState
      = (.err 400 "invalid scheduled_at", initState) := by
  have h1 := schedule_handler_correct (fun _ => none) (some ⟨" s ", "b", "12"⟩) 5 "id1" initState
  have h2 := schedule_handler_correct (fun _ => none) (some ⟨" ", "b", ""⟩) 5 "id1" initState
  have h3 := schedule_handler_correct (fun _ => none) (some ⟨"s", "b", "xx"⟩) 5 "id1" initState
  refine ⟨?_, ?_, ?_⟩
  · exact (h1.2.2 ⟨" s ", "b", "12"⟩ rfl (by decide) (by decide)).2.2.1 12
      (by decide) rfl (by decide)
  · exact h2.2.1 ⟨" ", "b", ""⟩ rfl (Or.inl (by decide))
  · exact (h3.2.2 ⟨"s", "b", "xx"⟩ rfl (by decide) (by decide)).2.2.2
      (by decide) rfl (by decide)

end EmailScheduler
